import Mathlib

/-! # yfc: semantic validation and code generation

A shallow embedding of `src/gen/gen.c` (the code generator) and of
`src/semantics/validate/validate.c` (program and return validation), followed by
theorems about the embedded functions.

Conventions of the embedding.

* A `FILE *` sink is the text written to it so far; `fprintf` appends.
* The process-wide counter `yf_dump_indent` is a field of the generator state
  that every generator function receives and returns.
* Generator functions return the node they were given as well, because
  walking a list moves its iteration cursor, which lives inside the node.
* Functions of the repository that are called but not defined in the two
  source files are fields of an environment record (`yfg_env`, `yfv_env`).
* A dereference of a null pointer has no result: the validator functions
  return `none` there.
-/

namespace Yfc

/-! ## Types shared by the validator and the generator -/

/-- Number format of a primitive type (`enum yfpt_format`). -/
inductive yfpt_format where
  | YFS_NONE
  | YFS_INT
  | YFS_FLOAT
deriving DecidableEq, Repr

/-- A primitive type descriptor (`struct yfs_type` with kind `YFST_PRIMITIVE`):
`primitive.size`, `primitive.type` and `name`, as filled in by `add_type`. -/
structure yfs_type where
  size : Int
  fmt : yfpt_format
  name : String
deriving DecidableEq, Repr

/-- The variable member of a symbol (`sym->var`): the fields the sources read. -/
structure yfs_var where
  name : String
  dtype : yfs_type
deriving DecidableEq, Repr

/-- The function member of a symbol (`sym->fn`): the fields the sources read. -/
structure yfs_fn where
  name : String
  rtype : yfs_type
deriving DecidableEq, Repr

/-- A symbol: a variable or a function. -/
inductive yf_sym where
  | var (v : yfs_var)
  | fn (f : yfs_fn)
deriving DecidableEq, Repr

/-- An operator code (`enum yf_operator`); its spelling is given by
`get_op_string`. -/
abbrev yf_operator := Nat

/-- Modelled from the spec: the list utility (`yf_list`, with `yf_list_init`,
`yf_list_add`, `yf_list_reset`, `yf_list_get`, `yf_list_next`) is not among the
source files. A list holds its elements in insertion order together with an
iteration cursor; elements are pointers to nodes that were allocated before
they were added (`validate_program` adds a node only when it is non-null), so
they are never null and the `if (!child) break;` guards of the loops never
fire. -/
structure yf_list (α : Type) where
  items : List α
  current : Nat
deriving Repr

/-- An empty list, cursor at the start (`yf_list_init`). -/
def yf_list_init {α : Type} : yf_list α := ⟨[], 0⟩

/-- Append an element at the end, the cursor stays (`yf_list_add`). -/
def yf_list_add {α : Type} (l : yf_list α) (x : α) : yf_list α :=
  ⟨l.items ++ [x], l.current⟩

/-- Move the cursor back to the first element (`yf_list_reset`). -/
def yf_list_reset {α : Type} (l : yf_list α) : yf_list α := ⟨l.items, 0⟩

/-- The element under the cursor; `none` stands for the result `-1`, given when
the cursor is past the last element (`yf_list_get`). -/
def yf_list_get {α : Type} (l : yf_list α) : Option α := l.items.get? l.current

/-- Advance the cursor by one element (`yf_list_next`). -/
def yf_list_next {α : Type} (l : yf_list α) : yf_list α := ⟨l.items, l.current + 1⟩

/-! ## The abstract syntax tree (`api/abstract-tree.h`, as used by `gen.c`) -/

mutual
/-- An expression (`struct yfa_expr`): a literal or identifier value, a binary
operation, or a function call. -/
inductive yfa_expr : Type
  | literal (val : Int)
  | identifier (sym : yfs_var)
  | binary (left : yfa_expr) (op : yf_operator) (right : yfa_expr)
  | call (name : yfs_fn) (args : yf_list yf_ast_node)
/-- The struct `yfa_program`. -/
inductive yfa_program : Type
  | mk (decls : yf_list yf_ast_node)
/-- The struct `yfa_vardecl`. -/
inductive yfa_vardecl : Type
  | mk (name : yfs_var) (expr : Option yf_ast_node)
/-- The struct `yfa_funcdecl`. -/
inductive yfa_funcdecl : Type
  | mk (name : yfs_fn) (params : yf_list yf_ast_node) (body : yf_ast_node)
/-- The struct `yfa_bstmt`. -/
inductive yfa_bstmt : Type
  | mk (stmts : yf_list yf_ast_node)
/-- The struct `yfa_return`. -/
inductive yfa_return : Type
  | mk (expr : Option yf_ast_node)
/-- The struct `yfa_if`. -/
inductive yfa_if : Type
  | mk (cond : yf_ast_node) (code : yf_ast_node) (elsebranch : Option yf_ast_node)
/-- An AST node (`struct yf_ast_node`): the tag `type` and the matching member. -/
inductive yf_ast_node : Type
  | program (p : yfa_program)
  | vardecl (d : yfa_vardecl)
  | funcdecl (f : yfa_funcdecl)
  | expr (e : yfa_expr)
  | bstmt (b : yfa_bstmt)
  | ret (r : yfa_return)
  | ifstmt (i : yfa_if)
  | empty
end

/-- The test `child->type == YFA_VARDECL`. -/
def yf_ast_node.is_vardecl : yf_ast_node → Bool
  | .vardecl _ => true
  | _ => false

/-! ## The code generator (`src/gen/gen.c`) -/

/-- What the generator reads and writes besides the tree: the text written to
`out` so far and the counter `yf_dump_indent`. -/
structure yfg_state where
  out : String
  yf_dump_indent : Int
deriving DecidableEq, Repr

/-- Functions of other files that the generator calls: `yfg_ctype` gives the
output spelling of a type (the text it leaves in `typebuf`), `get_op_string`
the spelling of an operator. -/
structure yfg_env where
  yfg_ctype : yfs_type → String
  get_op_string : yf_operator → String

/-- Write text to the sink. -/
def fprintf (st : yfg_state) (s : String) : yfg_state :=
  ⟨st.out ++ s, st.yf_dump_indent⟩

/-- The function `indent`. -/
def indent (st : yfg_state) : yfg_state := ⟨st.out, st.yf_dump_indent + 1⟩

/-- The function `dedent`. -/
def dedent (st : yfg_state) : yfg_state := ⟨st.out, st.yf_dump_indent - 1⟩

/-- The tab characters written by the loop `for (i = 0; i < n; i++)`. -/
def yfg_tabs (n : Int) : String := String.mk (List.replicate n.toNat '\t')

/-- Print the data, a line break, and one tab per indentation level. -/
def yfg_print_line (st : yfg_state) (data : String) : yfg_state :=
  fprintf (fprintf (fprintf st data) "\n") (yfg_tabs st.yf_dump_indent)

mutual
/-- Dispatch on the node tag. -/
def yf_gen_node (G : yfg_env) : yf_ast_node → yfg_state → yf_ast_node × yfg_state
  | .program p, st => let r := yf_gen_program G p st; (.program r.1, r.2)
  | .vardecl d, st => let r := yf_gen_vardecl G d st; (.vardecl r.1, r.2)
  | .funcdecl f, st => let r := yf_gen_funcdecl G f st; (.funcdecl r.1, r.2)
  | .expr e, st => let r := yf_gen_expr G e st; (.expr r.1, r.2)
  | .bstmt b, st => let r := yf_gen_bstmt G b st; (.bstmt r.1, r.2)
  | .ret r0, st => let r := yf_gen_return G r0 st; (.ret r.1, r.2)
  | .ifstmt i, st => let r := yf_gen_if G i st; (.ifstmt r.1, r.2)
  | .empty, st => (.empty, fprintf st ";\n")
/-- Walk the declarations from the cursor on, then reset the cursor. -/
def yf_gen_program (G : yfg_env) : yfa_program → yfg_state → yfa_program × yfg_state
  | .mk ⟨items, current⟩, st =>
    let r := yf_gen_program_loop G items current st
    (.mk (yf_list_reset ⟨r.1, max current items.length⟩), r.2)
/-- The loop of `yf_gen_program` over the elements of the list; `k` is the
position of the cursor counted from the head of the elements given, so that
`k + 1` elements are still in front of it when `k` is not zero. -/
def yf_gen_program_loop (G : yfg_env) :
    List yf_ast_node → Nat → yfg_state → List yf_ast_node × yfg_state
  | [], _, st => ([], st)
  | child :: rest, k + 1, st =>
    let r := yf_gen_program_loop G rest k st
    (child :: r.1, r.2)
  | child :: rest, 0, st =>
    let c := yf_gen_node G child st
    let st1 := if child.is_vardecl then yfg_print_line c.2 ";" else yfg_print_line c.2 ""
    let r := yf_gen_program_loop G rest 0 st1
    (c.1 :: r.1, r.2)
/-- Type spelling, source type name in a comment, variable name, and the
initialiser when there is one. -/
def yf_gen_vardecl (G : yfg_env) : yfa_vardecl → yfg_state → yfa_vardecl × yfg_state
  | .mk name none, st =>
    (.mk name none,
      fprintf st (G.yfg_ctype name.dtype ++ " /* " ++ name.dtype.name ++ " */ " ++ name.name))
  | .mk name (some e), st =>
    let st1 := fprintf st
      (G.yfg_ctype name.dtype ++ " /* " ++ name.dtype.name ++ " */ " ++ name.name)
    let r := yf_gen_node G e (fprintf st1 " = ")
    (.mk name (some r.1), r.2)
/-- Return type, name, parameter list and body of a function. -/
def yf_gen_funcdecl (G : yfg_env) : yfa_funcdecl → yfg_state → yfa_funcdecl × yfg_state
  | .mk name ⟨items, _⟩ body, st =>
    let st1 := fprintf st
      (G.yfg_ctype name.rtype ++ " /* " ++ name.rtype.name ++ " */ " ++ name.name)
    let st2 := fprintf st1 "("
    let r := yf_gen_funcdecl_loop G items 0 st2
    let st3 := fprintf r.2 ") "
    let b := yf_gen_node G body st3
    (.mk name ⟨r.1, items.length⟩ b.1, b.2)
/-- The parameter loop of `yf_gen_funcdecl`, entered after `yf_list_reset`. -/
def yf_gen_funcdecl_loop (G : yfg_env) :
    List yf_ast_node → Nat → yfg_state → List yf_ast_node × yfg_state
  | [], _, st => ([], st)
  | child :: rest, argct, st =>
    let st1 := if argct ≠ 0 then fprintf st ", " else st
    let c := yf_gen_node G child st1
    let r := yf_gen_funcdecl_loop G rest (argct + 1) c.2
    (c.1 :: r.1, r.2)
/-- Every expression is written between parentheses. -/
def yf_gen_expr (G : yfg_env) : yfa_expr → yfg_state → yfa_expr × yfg_state
  | .literal val, st =>
    (.literal val, fprintf (fprintf (fprintf st "(") (toString val)) ")")
  | .identifier sym, st =>
    (.identifier sym, fprintf (fprintf (fprintf st "(") sym.name) ")")
  | .binary left op right, st =>
    let l := yf_gen_expr G left (fprintf st "(")
    let st1 := fprintf l.2 (" " ++ G.get_op_string op ++ " ")
    let r := yf_gen_expr G right st1
    (.binary l.1 op r.1, fprintf r.2 ")")
  | .call name ⟨items, _⟩, st =>
    let st1 := fprintf (fprintf st "(") (name.name ++ "(")
    let r := yf_gen_expr_loop G items 0 st1
    (.call name ⟨r.1, items.length⟩, fprintf (fprintf r.2 ")") ")")
/-- The argument loop of `yf_gen_expr`, entered after `yf_list_reset`. -/
def yf_gen_expr_loop (G : yfg_env) :
    List yf_ast_node → Nat → yfg_state → List yf_ast_node × yfg_state
  | [], _, st => ([], st)
  | call_arg :: rest, argct, st =>
    let st1 := if argct ≠ 0 then fprintf st ", " else st
    let c := yf_gen_node G call_arg st1
    let r := yf_gen_expr_loop G rest (argct + 1) c.2
    (c.1 :: r.1, r.2)
/-- A block: the statements from the cursor on, one level deeper. The cursor
is left where the walk ends. -/
def yf_gen_bstmt (G : yfg_env) : yfa_bstmt → yfg_state → yfa_bstmt × yfg_state
  | .mk ⟨items, current⟩, st =>
    let st1 := indent (fprintf st "\x7b")
    let r := yf_gen_bstmt_loop G items current st1
    let st2 := yfg_print_line (dedent r.2) ""
    (.mk ⟨r.1, max current items.length⟩, fprintf st2 "\x7d")
/-- The loop of `yf_gen_bstmt`; `k` is the position of the cursor counted from
the head of the elements given. -/
def yf_gen_bstmt_loop (G : yfg_env) :
    List yf_ast_node → Nat → yfg_state → List yf_ast_node × yfg_state
  | [], _, st => ([], st)
  | child :: rest, k + 1, st =>
    let r := yf_gen_bstmt_loop G rest k st
    (child :: r.1, r.2)
  | child :: rest, 0, st =>
    let c := yf_gen_node G child (yfg_print_line st "")
    let r := yf_gen_bstmt_loop G rest 0 (fprintf c.2 ";")
    (c.1 :: r.1, r.2)
/-- The word `return ` and the expression when there is one. -/
def yf_gen_return (G : yfg_env) : yfa_return → yfg_state → yfa_return × yfg_state
  | .mk none, st => (.mk none, fprintf st "return ")
  | .mk (some e), st =>
    let r := yf_gen_node G e (fprintf st "return ")
    (.mk (some r.1), r.2)
/-- A conditional with its optional else branch. -/
def yf_gen_if (G : yfg_env) : yfa_if → yfg_state → yfa_if × yfg_state
  | .mk cond code none, st =>
    let c := yf_gen_node G cond (fprintf st "if (")
    let t := yf_gen_node G code (yfg_print_line c.2 ") \x7b")
    (.mk c.1 t.1 none, fprintf (yfg_print_line t.2 ";") "\x7d")
  | .mk cond code (some e), st =>
    let c := yf_gen_node G cond (fprintf st "if (")
    let t := yf_gen_node G code (yfg_print_line c.2 ") \x7b")
    let st1 := fprintf (yfg_print_line t.2 ";") "\x7d"
    let b := yf_gen_node G e (yfg_print_line st1 " else \x7b")
    (.mk c.1 t.1 (some b.1), fprintf (yfg_print_line b.2 ";") "\x7d")
end

/-- The text that `yf_gen_node` writes for a node when the indentation counter
is `d`. -/
def yfg_text (G : yfg_env) (n : yf_ast_node) (d : Int) : String :=
  (yf_gen_node G n ⟨"", d⟩).2.out

/-- The text that `yf_gen_expr` writes for an expression. -/
def yfg_expr_text (G : yfg_env) (e : yfa_expr) (d : Int) : String :=
  (yf_gen_expr G e ⟨"", d⟩).2.out

/-- The text that `yf_gen_funcdecl` writes for a function declaration. -/
def yfg_funcdecl_text (G : yfg_env) (f : yfa_funcdecl) (d : Int) : String :=
  (yf_gen_funcdecl G f ⟨"", d⟩).2.out

/-- The text that `yf_gen_bstmt` writes for a block. -/
def yfg_bstmt_text (G : yfg_env) (b : yfa_bstmt) (d : Int) : String :=
  (yf_gen_bstmt G b ⟨"", d⟩).2.out

/-- A state transformer that, at indentation `d`, appends one fixed text to
whatever was written before and leaves the indentation as it was. -/
def yfg_appends (f : yfg_state → yfg_state) (d : Int) : Prop :=
  ∃ txt : String, ∀ out : String, f ⟨out, d⟩ = ⟨out ++ txt, d⟩

/-! ### Reading the parentheses of a text as a tree -/

/-- A tree of parenthesis pairs: one node per pair, its children the pairs
directly inside it, in order. -/
inductive yfg_paren_tree : Type
  | node (children : List yfg_paren_tree)

/-- Read a text from left to right with a stack of open pairs: `(` opens a
pair, `)` closes the innermost open pair and makes it the last child of the
level around it, any other character is skipped. The result is the forest of
top-level pairs; there is none when the parentheses do not balance. -/
def yfg_parse_parens : List Char → List yfg_paren_tree → List (List yfg_paren_tree) →
    Option (List yfg_paren_tree)
  | [], top, [] => some top
  | [], _, _ :: _ => none
  | c :: cs, top, stack =>
    if c = '(' then yfg_parse_parens cs [] (top :: stack)
    else if c = ')' then
      match stack with
      | [] => none
      | up :: stack1 => yfg_parse_parens cs (up ++ [.node top]) stack1
    else yfg_parse_parens cs top stack

/-- The forest of parenthesis pairs of a text. -/
def yfg_paren_forest (s : String) : Option (List yfg_paren_tree) :=
  yfg_parse_parens s.data [] []

/-- A text without parentheses. -/
def yfg_no_parens (s : String) : Bool :=
  s.data.all (fun c => c != '(' && c != ')')

mutual
/-- The shape of an expression tree: one node per expression, whose children
are its sub-expressions (the two operands of a binary operation, the
arguments of a call). -/
def yfa_expr_shape : yfa_expr → yfg_paren_tree
  | .literal _ => .node []
  | .identifier _ => .node []
  | .binary left _ right => .node [yfa_expr_shape left, yfa_expr_shape right]
  | .call _ ⟨items, _⟩ => .node (yfa_args_shape items)
/-- The shapes of the expressions in an argument list. -/
def yfa_args_shape : List yf_ast_node → List yfg_paren_tree
  | [] => []
  | .expr e :: rest => yfa_expr_shape e :: yfa_args_shape rest
  | _ :: rest => yfa_args_shape rest
end

mutual
/-- The shape of the parentheses that the generator writes for an expression:
the shape of the expression tree, except that a call has a single child, the
pair around its argument list, which holds the arguments. -/
def yfg_expr_shape : yfa_expr → yfg_paren_tree
  | .literal _ => .node []
  | .identifier _ => .node []
  | .binary left _ right => .node [yfg_expr_shape left, yfg_expr_shape right]
  | .call _ ⟨items, _⟩ => .node [.node (yfg_args_shape items)]
/-- The generated shapes of the expressions in an argument list. -/
def yfg_args_shape : List yf_ast_node → List yfg_paren_tree
  | [] => []
  | .expr e :: rest => yfg_expr_shape e :: yfg_args_shape rest
  | _ :: rest => yfg_args_shape rest
end

mutual
/-- An expression as the validator builds it, with names that can be told
apart from parentheses: every call argument, at every depth, is an expression
node, and no identifier or callee name contains a parenthesis. -/
def yfa_expr_plain : yfa_expr → Bool
  | .literal _ => true
  | .identifier sym => yfg_no_parens sym.name
  | .binary left _ right => yfa_expr_plain left && yfa_expr_plain right
  | .call name ⟨items, _⟩ => yfg_no_parens name.name && yfa_args_plain items
/-- Every element of an argument list is a plain expression. -/
def yfa_args_plain : List yf_ast_node → Bool
  | [] => true
  | .expr e :: rest => yfa_expr_plain e && yfa_args_plain rest
  | _ :: _ => false
end

/-- An expression without any call. -/
def yfa_expr_call_free : yfa_expr → Bool
  | .literal _ => true
  | .identifier _ => true
  | .binary left _ right => yfa_expr_call_free left && yfa_expr_call_free right
  | .call _ _ => false

/-! ## The parse tree and the validator state -/

/-- A source location (`cin->loc`). -/
structure yf_loc where
  line : Int
  column : Int
deriving DecidableEq, Repr

mutual
/-- Modelled from the spec: the parse tree declarations
(`api/concrete-tree.h`) are not among the source files. A parse node mirrors
the source grammar (Program, VarDecl, FuncDecl, Expr with Value, Binary and
FuncCall, BlockStmt, Return, If, Empty) and carries a source location. The
sources read the tag, the location, the declaration list of a program and the
optional expression of a return; the remaining members are only handed on to
validators of other files. -/
inductive yfcs_expr : Type
  | value (text : String)
  | binary (left : yf_parse_node) (op : yf_operator) (right : yf_parse_node)
  | call (name : String) (args : yf_list yf_parse_node)
/-- The struct `yfcs_program`: the list `decls`. -/
inductive yfcs_program : Type
  | mk (decls : yf_list yf_parse_node)
/-- The struct `yfcs_return`: the expression `expr`, absent for a bare
return. -/
inductive yfcs_return : Type
  | mk (expr : Option yf_parse_node)
/-- A parse node (`struct yf_parse_node`); `unknown` stands for a tag outside
the eight kinds, which `validate_node` sends to its `default` branch. -/
inductive yf_parse_node : Type
  | expr (loc : yf_loc) (e : yfcs_expr)
  | vardecl (loc : yf_loc) (type_name : String) (name : String) (expr : Option yf_parse_node)
  | funcdecl (loc : yf_loc) (ret_name : String) (name : String)
      (params : yf_list yf_parse_node) (body : yf_parse_node)
  | program (loc : yf_loc) (p : yfcs_program)
  | bstmt (loc : yf_loc) (stmts : yf_list yf_parse_node)
  | ret (loc : yf_loc) (r : yfcs_return)
  | ifstmt (loc : yf_loc) (cond : yf_parse_node) (code : yf_parse_node)
      (elsebranch : Option yf_parse_node)
  | empty (loc : yf_loc)
  | unknown (loc : yf_loc)
end

/-- Modelled from the spec: the symbol table declarations are not among the
source files. A scope maps names to symbols and may have a parent scope. -/
inductive yfs_symtab : Type
  | mk (table : List (String × yf_sym)) (parent : Option yfs_symtab)

/-- The members of `struct yf_file_compilation_data` that validation works
on: the error flag, the type table and the root scope. -/
structure yf_file_compilation_data where
  error : Int
  types : List yfs_type
  symtab : yfs_symtab

/-- The validator (`struct yfv_validator`): the scope it is in and the data of
the file. The project data is not read by the sources and is left out. -/
structure yfv_validator where
  current_scope : yfs_symtab
  fdata : yf_file_compilation_data

/-- The assignment `validator->fdata->error = 1`. -/
def yfv_set_error (v : yfv_validator) : yfv_validator :=
  ⟨v.current_scope, ⟨1, v.fdata.types, v.fdata.symtab⟩⟩

/-- What a validating function leaves behind: the code it returns, the
validator after its side effects, and the AST node it wrote through its
output pointer. -/
structure yfv_result where
  code : Int
  validator : yfv_validator
  anode : yf_ast_node

/-- Functions of other files that the validator calls. A validating function
gives `none` when it dereferences a null pointer. Those that receive the
enclosing return type and the pointer to the has-returned flag (both may be
null, written `none`) also give the value behind that pointer afterwards.
`yf_malloc` tells whether an allocation made in the given state succeeds;
`yfs_output_diagnostics` gives a nonzero code when the two types are not
compatible (what it prints is not part of the embedding). -/
structure yfv_env where
  yf_malloc : yfv_validator → Bool
  validate_expr : yfv_validator → yf_parse_node → Option yfv_result
  validate_vardecl : yfv_validator → yf_parse_node → Option yfv_result
  validate_funcdecl : yfv_validator → yf_parse_node → Option yfv_result
  validate_bstmt : yfv_validator → yf_parse_node → Option yfs_type → Option Int →
    Option (yfv_result × Option Int)
  validate_if : yfv_validator → yf_parse_node → Option yfs_type → Option Int →
    Option (yfv_result × Option Int)
  yfs_output_diagnostics : Option yfs_type → yfs_type → yf_file_compilation_data →
    yf_loc → Int
  yfse_get_expr_type : yf_ast_node → yf_file_compilation_data → Option yfs_type
  yfv_get_type_s : yf_file_compilation_data → String → Option yfs_type

/-! ## The validator (`src/semantics/validate/validate.c`) -/

/-- The condition of the `if` at lines 166 to 176 of `validate_return`, once
the enclosing return type is known not to be null: the diagnostics of the
type of the expression (of the registered type `void` for a bare return)
against the return type when its size is not zero, and otherwise whether an
expression is present. -/
def validate_return_cond (X : yfv_env) (v : yfv_validator) (loc : yf_loc)
    (aexpr : Option yf_ast_node) (t : yfs_type) : Int :=
  if t.size ≠ 0 then
    X.yfs_output_diagnostics
      (match aexpr with
        | some e => X.yfse_get_expr_type e v.fdata
        | none => X.yfv_get_type_s v.fdata "void")
      t v.fdata loc
  else if aexpr.isSome then 1 else 0

/-- Lines 166 to 183 of `validate_return`: the check of the validated
expression `aexpr` (absent for a bare return) against the enclosing return
type, which is dereferenced first, and the write through `returns`. -/
def validate_return_check (X : yfv_env) (v : yfv_validator) (loc : yf_loc)
    (aexpr : Option yf_ast_node) (type : Option yfs_type) (returns : Option Int) :
    Option (yfv_result × Option Int) :=
  match type with
  | none => none
  | some t =>
    if validate_return_cond X v loc aexpr t ≠ 0 then
      some (⟨1, yfv_set_error v, .ret (.mk aexpr)⟩, returns)
    else
      match returns with
      | none => none
      | some _ => some (⟨0, v, .ret (.mk aexpr)⟩, some 1)

/-- Validate a return statement against the enclosing return type `type` and
set the has-returned flag behind `returns`. -/
def validate_return (X : yfv_env) (v : yfv_validator) (loc : yf_loc) (c : yfcs_return)
    (type : Option yfs_type) (returns : Option Int) : Option (yfv_result × Option Int) :=
  match c with
  | .mk cexpr =>
    if X.yf_malloc v = false then
      some (⟨2, v, .ret (.mk none)⟩, returns)
    else
      match cexpr with
      | some ce =>
        match X.validate_expr v ce with
        | none => none
        | some r =>
          if r.code ≠ 0 then
            some (⟨1, yfv_set_error r.validator, .ret (.mk (some r.anode))⟩, returns)
          else validate_return_check X r.validator loc (some r.anode) type returns
      | none => validate_return_check X v loc none type returns

mutual
/-- Dispatch on the tag of a parse node. In the `default` branch nothing is
written to the output node, which the caller frees; the node given here is
never read. -/
def validate_node (X : yfv_env) : yf_parse_node → yfv_validator → Option yfs_type →
    Option Int → Option (yfv_result × Option Int)
  | .expr loc e, v, _, for_bstmt2 =>
    (X.validate_expr v (.expr loc e)).map (fun r => (r, for_bstmt2))
  | .vardecl loc t n e, v, _, for_bstmt2 =>
    (X.validate_vardecl v (.vardecl loc t n e)).map (fun r => (r, for_bstmt2))
  | .funcdecl loc t n ps b, v, _, for_bstmt2 =>
    (X.validate_funcdecl v (.funcdecl loc t n ps b)).map (fun r => (r, for_bstmt2))
  | .program _ p, v, _, for_bstmt2 =>
    (validate_program X p v).map (fun r => (r, for_bstmt2))
  | .bstmt loc stmts, v, for_bstmt1, for_bstmt2 =>
    X.validate_bstmt v (.bstmt loc stmts) for_bstmt1 for_bstmt2
  | .ret loc r, v, for_bstmt1, for_bstmt2 =>
    validate_return X v loc r for_bstmt1 for_bstmt2
  | .ifstmt loc c t e, v, for_bstmt1, for_bstmt2 =>
    X.validate_if v (.ifstmt loc c t e) for_bstmt1 for_bstmt2
  | .empty _, v, _, for_bstmt2 => some (⟨0, v, .empty⟩, for_bstmt2)
  | .unknown _, v, _, for_bstmt2 => some (⟨1, v, .empty⟩, for_bstmt2)
/-- Validate the declarations of a program: the AST list starts empty, the
parse list is walked from its first element. -/
def validate_program (X : yfv_env) : yfcs_program → yfv_validator → Option yfv_result
  | .mk ⟨items, _⟩, v => validate_program_loop X items v yf_list_init 0
/-- The loop of `validate_program` over the declarations still to visit, with
the AST list built so far and the local `err`. -/
def validate_program_loop (X : yfv_env) : List yf_parse_node → yfv_validator →
    yf_list yf_ast_node → Int → Option yfv_result
  | [], v, decls, err => some ⟨err, v, .program (.mk decls)⟩
  | cnode :: rest, v, decls, err =>
    if X.yf_malloc v = false then
      some ⟨2, v, .program (.mk decls)⟩
    else
      match validate_node X cnode v none none with
      | none => none
      | some (r, _) =>
        if r.code ≠ 0 then
          validate_program_loop X rest (yfv_set_error r.validator) decls 1
        else
          validate_program_loop X rest r.validator (yf_list_add decls r.anode) err
end

/-! ### The validation of the declarations one by one -/

/-- The results of validating the top-level declarations in source order,
each in the state left when its predecessors were handled (after a failing
declaration that state has the error flag set); `none` when one of the
validations dereferences a null pointer. -/
def yfv_decl_results (X : yfv_env) : List yf_parse_node → yfv_validator →
    Option (List yfv_result)
  | [], _ => some []
  | cnode :: rest, v =>
    match validate_node X cnode v none none with
    | none => none
    | some (r, _) =>
      (yfv_decl_results X rest
        (if r.code ≠ 0 then yfv_set_error r.validator else r.validator)).map (fun rs => r :: rs)

/-- The validators of other files never clear an error flag that is set. -/
def yfv_keeps_error (X : yfv_env) : Prop :=
  (∀ v c r, X.validate_expr v c = some r → v.fdata.error = 1 → r.validator.fdata.error = 1) ∧
  (∀ v c r, X.validate_vardecl v c = some r → v.fdata.error = 1 →
    r.validator.fdata.error = 1) ∧
  (∀ v c r, X.validate_funcdecl v c = some r → v.fdata.error = 1 →
    r.validator.fdata.error = 1) ∧
  (∀ v c t f r, X.validate_bstmt v c t f = some r → v.fdata.error = 1 →
    r.1.validator.fdata.error = 1) ∧
  (∀ v c t f r, X.validate_if v c t f = some r → v.fdata.error = 1 →
    r.1.validator.fdata.error = 1)

/-- A result with code 0. -/
def yfv_result.ok (r : yfv_result) : Bool := r.code == 0

/-- The validator state after the declarations with the given results were
handled, starting from `v`: the state left by the last one, with the error
flag set by `validate_program` after each failing one. -/
def yfv_after (v : yfv_validator) : List yfv_result → yfv_validator
  | [] => v
  | r :: rs => yfv_after (if r.code ≠ 0 then yfv_set_error r.validator else r.validator) rs

/-! ## Concrete inputs used to exercise the theorems -/

/-- The type `int`. -/
def yft_int : yfs_type := ⟨32, .YFS_INT, "int"⟩

/-- The type `void`. -/
def yft_void : yfs_type := ⟨0, .YFS_NONE, "void"⟩

/-- A generator environment: every type is spelled `int32_t`, every operator
is spelled `+`. -/
def yft_gen : yfg_env := ⟨fun _ => "int32_t", fun _ => "+"⟩

/-- A source location. -/
def yft_loc : yf_loc := ⟨1, 1⟩

/-- A validator state with the error flag clear. -/
def yft_validator : yfv_validator :=
  ⟨.mk [] none, ⟨0, [yft_int, yft_void], .mk [] none⟩⟩

/-- A validator environment: allocation succeeds; a value expression
validates to the literal 1 of type `int`; a variable declaration validates
when its type is `int`; every other validator of another file fails; two
types are compatible when their formats agree. -/
def yft_env : yfv_env :=
  ⟨fun _ => true,
   fun v c => match c with
     | .expr _ (.value _) => some ⟨0, v, .expr (.literal 1)⟩
     | _ => some ⟨1, v, .empty⟩,
   fun v c => match c with
     | .vardecl _ t n _ =>
       if t = "int" then some ⟨0, v, .vardecl (.mk ⟨n, yft_int⟩ none)⟩
       else some ⟨1, v, .empty⟩
     | _ => some ⟨1, v, .empty⟩,
   fun v _ => some ⟨1, v, .empty⟩,
   fun v _ _ f => some (⟨1, v, .empty⟩, f),
   fun v _ _ f => some (⟨1, v, .empty⟩, f),
   fun a t _ _ => match a with
     | some a => if a.fmt = t.fmt then 0 else 1
     | none => 1,
   fun _ _ => some yft_int,
   fun fd name => fd.types.find? (fun t => t.name == name)⟩

/-- A program with an invalid declaration followed by a valid one. -/
def yft_program : yfcs_program :=
  .mk ⟨[.vardecl yft_loc "string" "s" none, .vardecl yft_loc "int" "x" none], 0⟩

/-- The call `f()`. -/
def yft_call : yfa_expr := .call ⟨"f", yft_int⟩ ⟨[], 0⟩

/-- The call `f(1, 2 + x)`. -/
def yft_call2 : yfa_expr :=
  .call ⟨"f", yft_int⟩
    ⟨[.expr (.literal 1), .expr (.binary (.literal 2) 0 (.identifier ⟨"x", yft_int⟩))], 0⟩

/-- The block with the single statement `return 0`. -/
def yft_block : yfa_bstmt := .mk ⟨[.ret (.mk (some (.expr (.literal 0))))], 0⟩

/-! ## The entry point of the generator and the built-in types -/

/-- What `yfg_gen` leaves behind: the code it returns, the content of the
output file (`none` when the file could not be opened), the tree and the
indentation counter. -/
structure yfg_gen_result where
  code : Int
  file : Option String
  ast_tree : yf_ast_node
  yf_dump_indent : Int

/-- Open the output file for writing, write the fixed header and the text of
the tree `data->ast_tree`. `can_open` tells whether `fopen` succeeds; the file
is opened with mode `w`, so it starts empty. -/
def yfg_gen (G : yfg_env) (can_open : Bool) (ast_tree : yf_ast_node) (yf_dump_indent : Int) :
    yfg_gen_result :=
  if can_open = false then
    ⟨1, none, ast_tree, yf_dump_indent⟩
  else
    let st1 := fprintf ⟨"", yf_dump_indent⟩ "/* Generated by yfc. */\n\n"
    let st2 := fprintf st1 "#include <stdint.h>\n\n"
    let r := yf_gen_node G ast_tree st2
    ⟨0, some r.2.out, r.1, r.2.yf_dump_indent⟩

/-- Modelled from the spec: `yfv_add_type` is not among the source files. It
registers a type under its name and fails, leaving the registry as it was,
when the name is registered already. -/
def yfv_add_type (fdata : yf_file_compilation_data) (type : yfs_type) :
    yf_file_compilation_data :=
  if fdata.types.any (fun t => t.name == type.name) then fdata
  else ⟨fdata.error, fdata.types ++ [type], fdata.symtab⟩

/-- Allocate a primitive type, fill it in and register it. The result of the
allocation is not checked: when it fails the first write goes through a null
pointer. `yf_malloc` tells whether the allocation succeeds. -/
def add_type (yf_malloc : yf_file_compilation_data → Bool) (fdata : yf_file_compilation_data)
    (name : String) (size : Int) (fmt : yfpt_format) : Option yf_file_compilation_data :=
  if yf_malloc fdata = false then none
  else some (yfv_add_type fdata ⟨size, fmt, name⟩)

/-- Register the built-in types, in the order of the source. -/
def yfv_add_builtin_types (yf_malloc : yf_file_compilation_data → Bool)
    (fdata : yf_file_compilation_data) : Option yf_file_compilation_data :=
  (add_type yf_malloc fdata "char" 8 .YFS_INT).bind fun f1 =>
  (add_type yf_malloc f1 "short" 16 .YFS_INT).bind fun f2 =>
  (add_type yf_malloc f2 "int" 32 .YFS_INT).bind fun f3 =>
  (add_type yf_malloc f3 "long" 64 .YFS_INT).bind fun f4 =>
  (add_type yf_malloc f4 "void" 0 .YFS_NONE).bind fun f5 =>
  (add_type yf_malloc f5 "float" 32 .YFS_FLOAT).bind fun f6 =>
  (add_type yf_malloc f6 "double" 64 .YFS_FLOAT).bind fun f7 =>
  (add_type yf_malloc f7 "i16" 16 .YFS_INT).bind fun f8 =>
  (add_type yf_malloc f8 "i32" 32 .YFS_INT).bind fun f9 =>
  (add_type yf_malloc f9 "i64" 64 .YFS_INT).bind fun f10 =>
  (add_type yf_malloc f10 "f16" 16 .YFS_FLOAT).bind fun f11 =>
  (add_type yf_malloc f11 "f32" 32 .YFS_FLOAT).bind fun f12 =>
  (add_type yf_malloc f12 "f64" 64 .YFS_FLOAT).bind fun f13 =>
  add_type yf_malloc f13 "bool" 1 .YFS_INT

/-- The assignment `fdata->types.table = yfh_new()`: an empty type table. -/
def yfh_new_types (fdata : yf_file_compilation_data) : yf_file_compilation_data :=
  ⟨fdata.error, [], fdata.symtab⟩

/-- Validate a file: a fresh type table, the built-in types, then the program
`fdata->parse_tree` with the root scope as the current scope. -/
def yfs_validate (X : yfv_env) (yf_malloc : yf_file_compilation_data → Bool)
    (fdata : yf_file_compilation_data) (parse_tree : yfcs_program) : Option yfv_result :=
  match yfv_add_builtin_types yf_malloc (yfh_new_types fdata) with
  | none => none
  | some fd => validate_program X parse_tree ⟨fd.symtab, fd⟩

/-- The built-in types as the spec lists them. -/
def yfs_builtin_types : List yfs_type :=
  [⟨8, .YFS_INT, "char"⟩, ⟨16, .YFS_INT, "short"⟩, ⟨32, .YFS_INT, "int"⟩,
   ⟨64, .YFS_INT, "long"⟩, ⟨0, .YFS_NONE, "void"⟩, ⟨32, .YFS_FLOAT, "float"⟩,
   ⟨64, .YFS_FLOAT, "double"⟩, ⟨16, .YFS_INT, "i16"⟩, ⟨32, .YFS_INT, "i32"⟩,
   ⟨64, .YFS_INT, "i64"⟩, ⟨16, .YFS_FLOAT, "f16"⟩, ⟨32, .YFS_FLOAT, "f32"⟩,
   ⟨64, .YFS_FLOAT, "f64"⟩, ⟨1, .YFS_INT, "bool"⟩]

/-! ## The values of the indentation counter during a run

Each function below follows the generator function of the same name and
collects, in order, the values that `indent` and `dedent` give to the counter
`yf_dump_indent`; the states between the calls are those of the generator
itself. -/

mutual
/-- The counter values assigned while `yf_gen_node` runs. -/
def yf_gen_node_levels (G : yfg_env) : yf_ast_node → yfg_state → List Int
  | .program p, st => yf_gen_program_levels G p st
  | .vardecl d, st => yf_gen_vardecl_levels G d st
  | .funcdecl f, st => yf_gen_funcdecl_levels G f st
  | .expr e, st => yf_gen_expr_levels G e st
  | .bstmt b, st => yf_gen_bstmt_levels G b st
  | .ret r0, st => yf_gen_return_levels G r0 st
  | .ifstmt i, st => yf_gen_if_levels G i st
  | .empty, _ => []
/-- The counter values assigned while `yf_gen_program` runs. -/
def yf_gen_program_levels (G : yfg_env) : yfa_program → yfg_state → List Int
  | .mk ⟨items, current⟩, st => yf_gen_program_loop_levels G items current st
/-- The counter values assigned in the loop of `yf_gen_program`. -/
def yf_gen_program_loop_levels (G : yfg_env) :
    List yf_ast_node → Nat → yfg_state → List Int
  | [], _, _ => []
  | _ :: rest, k + 1, st => yf_gen_program_loop_levels G rest k st
  | child :: rest, 0, st =>
    let c := yf_gen_node G child st
    let st1 := if child.is_vardecl then yfg_print_line c.2 ";" else yfg_print_line c.2 ""
    yf_gen_node_levels G child st ++ yf_gen_program_loop_levels G rest 0 st1
/-- The counter values assigned while `yf_gen_vardecl` runs. -/
def yf_gen_vardecl_levels (G : yfg_env) : yfa_vardecl → yfg_state → List Int
  | .mk _ none, _ => []
  | .mk name (some e), st =>
    let st1 := fprintf st
      (G.yfg_ctype name.dtype ++ " /* " ++ name.dtype.name ++ " */ " ++ name.name)
    yf_gen_node_levels G e (fprintf st1 " = ")
/-- The counter values assigned while `yf_gen_funcdecl` runs. -/
def yf_gen_funcdecl_levels (G : yfg_env) : yfa_funcdecl → yfg_state → List Int
  | .mk name ⟨items, _⟩ body, st =>
    let st1 := fprintf st
      (G.yfg_ctype name.rtype ++ " /* " ++ name.rtype.name ++ " */ " ++ name.name)
    let st2 := fprintf st1 "("
    let r := yf_gen_funcdecl_loop G items 0 st2
    let st3 := fprintf r.2 ") "
    yf_gen_funcdecl_loop_levels G items 0 st2 ++ yf_gen_node_levels G body st3
/-- The counter values assigned in the parameter loop of `yf_gen_funcdecl`. -/
def yf_gen_funcdecl_loop_levels (G : yfg_env) :
    List yf_ast_node → Nat → yfg_state → List Int
  | [], _, _ => []
  | child :: rest, argct, st =>
    let st1 := if argct ≠ 0 then fprintf st ", " else st
    let c := yf_gen_node G child st1
    yf_gen_node_levels G child st1 ++ yf_gen_funcdecl_loop_levels G rest (argct + 1) c.2
/-- The counter values assigned while `yf_gen_expr` runs. -/
def yf_gen_expr_levels (G : yfg_env) : yfa_expr → yfg_state → List Int
  | .literal _, _ => []
  | .identifier _, _ => []
  | .binary left op right, st =>
    let l := yf_gen_expr G left (fprintf st "(")
    let st1 := fprintf l.2 (" " ++ G.get_op_string op ++ " ")
    yf_gen_expr_levels G left (fprintf st "(") ++ yf_gen_expr_levels G right st1
  | .call name ⟨items, _⟩, st =>
    let st1 := fprintf (fprintf st "(") (name.name ++ "(")
    yf_gen_expr_loop_levels G items 0 st1
/-- The counter values assigned in the argument loop of `yf_gen_expr`. -/
def yf_gen_expr_loop_levels (G : yfg_env) :
    List yf_ast_node → Nat → yfg_state → List Int
  | [], _, _ => []
  | call_arg :: rest, argct, st =>
    let st1 := if argct ≠ 0 then fprintf st ", " else st
    let c := yf_gen_node G call_arg st1
    yf_gen_node_levels G call_arg st1 ++ yf_gen_expr_loop_levels G rest (argct + 1) c.2
/-- The counter values assigned while `yf_gen_bstmt` runs: the value after
`indent`, the values assigned by the statements, the value after `dedent`. -/
def yf_gen_bstmt_levels (G : yfg_env) : yfa_bstmt → yfg_state → List Int
  | .mk ⟨items, current⟩, st =>
    let st1 := indent (fprintf st "\x7b")
    let r := yf_gen_bstmt_loop G items current st1
    st1.yf_dump_indent ::
      (yf_gen_bstmt_loop_levels G items current st1 ++ [(dedent r.2).yf_dump_indent])
/-- The counter values assigned in the loop of `yf_gen_bstmt`. -/
def yf_gen_bstmt_loop_levels (G : yfg_env) :
    List yf_ast_node → Nat → yfg_state → List Int
  | [], _, _ => []
  | _ :: rest, k + 1, st => yf_gen_bstmt_loop_levels G rest k st
  | child :: rest, 0, st =>
    let c := yf_gen_node G child (yfg_print_line st "")
    yf_gen_node_levels G child (yfg_print_line st "") ++
      yf_gen_bstmt_loop_levels G rest 0 (fprintf c.2 ";")
/-- The counter values assigned while `yf_gen_return` runs. -/
def yf_gen_return_levels (G : yfg_env) : yfa_return → yfg_state → List Int
  | .mk none, _ => []
  | .mk (some e), st => yf_gen_node_levels G e (fprintf st "return ")
/-- The counter values assigned while `yf_gen_if` runs. -/
def yf_gen_if_levels (G : yfg_env) : yfa_if → yfg_state → List Int
  | .mk cond code none, st =>
    let c := yf_gen_node G cond (fprintf st "if (")
    yf_gen_node_levels G cond (fprintf st "if (") ++
      yf_gen_node_levels G code (yfg_print_line c.2 ") \x7b")
  | .mk cond code (some e), st =>
    let c := yf_gen_node G cond (fprintf st "if (")
    let t := yf_gen_node G code (yfg_print_line c.2 ") \x7b")
    let st1 := fprintf (yfg_print_line t.2 ";") "\x7d"
    yf_gen_node_levels G cond (fprintf st "if (") ++
      yf_gen_node_levels G code (yfg_print_line c.2 ") \x7b") ++
      yf_gen_node_levels G e (yfg_print_line st1 " else \x7b")
end

/-! ## The texts as the claims word them, and further concrete inputs -/

/-- The text of a conditional with `;` directly followed by the closing
brace: `if (`, the condition, `) {`, a line break and the indentation, the
then-branch, `;`, `}`, and for an else-branch ` else {`, a line break and the
indentation, the branch, `;`, `}`. -/
def yfg_if_text_tight (G : yfg_env) (cond code : yf_ast_node) (elsebranch : Option yf_ast_node)
    (d : Int) : String :=
  "if (" ++ yfg_text G cond d ++ ") \x7b" ++ "\n" ++ yfg_tabs d ++ yfg_text G code d ++ ";"
    ++ "\x7d" ++
    (match elsebranch with
      | none => ""
      | some e => " else \x7b" ++ "\n" ++ yfg_tabs d ++ yfg_text G e d ++ ";" ++ "\x7d")

/-- The text of a program in which a variable declaration is followed by `;`
alone and any other declaration by a line break. -/
def yfg_program_text_tight (G : yfg_env) (decls : List yf_ast_node) (d : Int) : String :=
  String.join (decls.map (fun c => yfg_text G c d ++ (if c.is_vardecl then ";" else "\n")))

/-- A generator environment in which every type is spelled `int`. -/
def yft_gen_int : yfg_env := ⟨fun _ => "int", fun _ => "+"⟩

/-- The function declaration of `int main() { return 0; }`, freshly built. -/
def yft_main : yfa_funcdecl := .mk ⟨"main", yft_int⟩ ⟨[], 0⟩ (.bstmt yft_block)

/-- The tree of the program `int main() { return 0; }`, freshly built. -/
def yft_unit : yf_ast_node := .program (.mk ⟨[.funcdecl yft_main], 0⟩)

/-- The tree of the program `int x;`. -/
def yft_unit_var : yf_ast_node :=
  .program (.mk ⟨[.vardecl (.mk ⟨"x", yft_int⟩ none)], 0⟩)

/-- The conditional `if (1) return`, without an else branch. -/
def yft_if : yfa_if := .mk (.expr (.literal 1)) (.ret (.mk none)) none

/-- A program whose only top-level node is a bare return. -/
def yft_program_ret : yfcs_program := .mk ⟨[.ret yft_loc (.mk none)], 0⟩

/-! ## Theorems: every generator function appends to the sink and restores the indentation -/

theorem fprintf_mk (out : String) (d : Int) (s : String) :
    fprintf ⟨out, d⟩ s = ⟨out ++ s, d⟩ := rfl

theorem yfg_print_line_mk (out : String) (d : Int) (s : String) :
    yfg_print_line ⟨out, d⟩ s = ⟨out ++ (s ++ "\n" ++ yfg_tabs d), d⟩ := by
  simp [yfg_print_line, fprintf, String.append_assoc]

theorem indent_mk (out : String) (d : Int) : indent ⟨out, d⟩ = ⟨out, d + 1⟩ := rfl

theorem dedent_mk (out : String) (d : Int) : dedent ⟨out, d⟩ = ⟨out, d - 1⟩ := rfl

mutual
theorem yf_gen_node_appends (G : yfg_env) :
    ∀ (n : yf_ast_node) (d : Int), yfg_appends (fun st => (yf_gen_node G n st).2) d
  | .program p, d => by
    obtain ⟨t, ht⟩ := yf_gen_program_appends G p d
    exact ⟨t, fun out => by simpa [yf_gen_node] using ht out⟩
  | .vardecl p, d => by
    obtain ⟨t, ht⟩ := yf_gen_vardecl_appends G p d
    exact ⟨t, fun out => by simpa [yf_gen_node] using ht out⟩
  | .funcdecl p, d => by
    obtain ⟨t, ht⟩ := yf_gen_funcdecl_appends G p d
    exact ⟨t, fun out => by simpa [yf_gen_node] using ht out⟩
  | .expr p, d => by
    obtain ⟨t, ht⟩ := yf_gen_expr_appends G p d
    exact ⟨t, fun out => by simpa [yf_gen_node] using ht out⟩
  | .bstmt p, d => by
    obtain ⟨t, ht⟩ := yf_gen_bstmt_appends G p d
    exact ⟨t, fun out => by simpa [yf_gen_node] using ht out⟩
  | .ret p, d => by
    obtain ⟨t, ht⟩ := yf_gen_return_appends G p d
    exact ⟨t, fun out => by simpa [yf_gen_node] using ht out⟩
  | .ifstmt p, d => by
    obtain ⟨t, ht⟩ := yf_gen_if_appends G p d
    exact ⟨t, fun out => by simpa [yf_gen_node] using ht out⟩
  | .empty, d => ⟨";\n", fun out => by simp [yf_gen_node, fprintf_mk]⟩
theorem yf_gen_program_appends (G : yfg_env) :
    ∀ (p : yfa_program) (d : Int), yfg_appends (fun st => (yf_gen_program G p st).2) d
  | .mk ⟨items, current⟩, d => by
    obtain ⟨t, ht⟩ := yf_gen_program_loop_appends G items current d
    exact ⟨t, fun out => by simpa [yf_gen_program] using ht out⟩
theorem yf_gen_program_loop_appends (G : yfg_env) :
    ∀ (l : List yf_ast_node) (k : Nat) (d : Int),
      yfg_appends (fun st => (yf_gen_program_loop G l k st).2) d
  | [], _, d => ⟨"", fun out => by simp [yf_gen_program_loop]⟩
  | child :: rest, k + 1, d => by
    obtain ⟨t, ht⟩ := yf_gen_program_loop_appends G rest k d
    exact ⟨t, fun out => by simpa [yf_gen_program_loop] using ht out⟩
  | child :: rest, 0, d => by
    obtain ⟨t1, h1⟩ := yf_gen_node_appends G child d
    obtain ⟨t2, h2⟩ := yf_gen_program_loop_appends G rest 0 d
    simp only at h1 h2
    by_cases hv : child.is_vardecl = true
    · exact ⟨t1 ++ (";" ++ "\n" ++ yfg_tabs d) ++ t2, fun out => by
        simp [yf_gen_program_loop, hv, h1, h2, yfg_print_line_mk, String.append_assoc]⟩
    · exact ⟨t1 ++ ("" ++ "\n" ++ yfg_tabs d) ++ t2, fun out => by
        simp [yf_gen_program_loop, hv, h1, h2, yfg_print_line_mk, String.append_assoc]⟩
theorem yf_gen_vardecl_appends (G : yfg_env) :
    ∀ (p : yfa_vardecl) (d : Int), yfg_appends (fun st => (yf_gen_vardecl G p st).2) d
  | .mk name none, d =>
    ⟨G.yfg_ctype name.dtype ++ " /* " ++ name.dtype.name ++ " */ " ++ name.name,
      fun out => by simp only [yf_gen_vardecl, fprintf_mk]⟩
  | .mk name (some e), d => by
    obtain ⟨t1, h1⟩ := yf_gen_node_appends G e d
    simp only at h1
    exact ⟨(G.yfg_ctype name.dtype ++ " /* " ++ name.dtype.name ++ " */ " ++ name.name)
        ++ " = " ++ t1, fun out => by
      simp [yf_gen_vardecl, fprintf_mk, h1, String.append_assoc]⟩
theorem yf_gen_funcdecl_appends (G : yfg_env) :
    ∀ (p : yfa_funcdecl) (d : Int), yfg_appends (fun st => (yf_gen_funcdecl G p st).2) d
  | .mk name ⟨items, _⟩ body, d => by
    obtain ⟨t1, h1⟩ := yf_gen_funcdecl_loop_appends G items 0 d
    obtain ⟨t2, h2⟩ := yf_gen_node_appends G body d
    simp only at h1 h2
    exact ⟨(G.yfg_ctype name.rtype ++ " /* " ++ name.rtype.name ++ " */ " ++ name.name)
        ++ "(" ++ t1 ++ ") " ++ t2, fun out => by
      simp [yf_gen_funcdecl, fprintf_mk, h1, h2, String.append_assoc]⟩
theorem yf_gen_funcdecl_loop_appends (G : yfg_env) :
    ∀ (l : List yf_ast_node) (k : Nat) (d : Int),
      yfg_appends (fun st => (yf_gen_funcdecl_loop G l k st).2) d
  | [], _, d => ⟨"", fun out => by simp [yf_gen_funcdecl_loop]⟩
  | child :: rest, k, d => by
    obtain ⟨t1, h1⟩ := yf_gen_node_appends G child d
    obtain ⟨t2, h2⟩ := yf_gen_funcdecl_loop_appends G rest (k + 1) d
    simp only at h1 h2
    by_cases hk : k = 0
    · subst hk
      exact ⟨t1 ++ t2, fun out => by
        simp [yf_gen_funcdecl_loop, h1, h2, String.append_assoc]⟩
    · exact ⟨", " ++ t1 ++ t2, fun out => by
        simp [yf_gen_funcdecl_loop, hk, h1, h2, fprintf_mk, String.append_assoc]⟩
theorem yf_gen_expr_appends (G : yfg_env) :
    ∀ (p : yfa_expr) (d : Int), yfg_appends (fun st => (yf_gen_expr G p st).2) d
  | .literal val, d => ⟨"(" ++ toString val ++ ")", fun out => by
      simp [yf_gen_expr, fprintf_mk, String.append_assoc]⟩
  | .identifier sym, d => ⟨"(" ++ sym.name ++ ")", fun out => by
      simp [yf_gen_expr, fprintf_mk, String.append_assoc]⟩
  | .binary left op right, d => by
    obtain ⟨t1, h1⟩ := yf_gen_expr_appends G left d
    obtain ⟨t2, h2⟩ := yf_gen_expr_appends G right d
    simp only at h1 h2
    exact ⟨"(" ++ t1 ++ (" " ++ G.get_op_string op ++ " ") ++ t2 ++ ")", fun out => by
      simp [yf_gen_expr, fprintf_mk, h1, h2, String.append_assoc]⟩
  | .call name ⟨items, _⟩, d => by
    obtain ⟨t1, h1⟩ := yf_gen_expr_loop_appends G items 0 d
    simp only at h1
    exact ⟨"(" ++ (name.name ++ "(") ++ t1 ++ ")" ++ ")", fun out => by
      simp [yf_gen_expr, fprintf_mk, h1, String.append_assoc]⟩
theorem yf_gen_expr_loop_appends (G : yfg_env) :
    ∀ (l : List yf_ast_node) (k : Nat) (d : Int),
      yfg_appends (fun st => (yf_gen_expr_loop G l k st).2) d
  | [], _, d => ⟨"", fun out => by simp [yf_gen_expr_loop]⟩
  | child :: rest, k, d => by
    obtain ⟨t1, h1⟩ := yf_gen_node_appends G child d
    obtain ⟨t2, h2⟩ := yf_gen_expr_loop_appends G rest (k + 1) d
    simp only at h1 h2
    by_cases hk : k = 0
    · subst hk
      exact ⟨t1 ++ t2, fun out => by
        simp [yf_gen_expr_loop, h1, h2, String.append_assoc]⟩
    · exact ⟨", " ++ t1 ++ t2, fun out => by
        simp [yf_gen_expr_loop, hk, h1, h2, fprintf_mk, String.append_assoc]⟩
theorem yf_gen_bstmt_appends (G : yfg_env) :
    ∀ (p : yfa_bstmt) (d : Int), yfg_appends (fun st => (yf_gen_bstmt G p st).2) d
  | .mk ⟨items, current⟩, d => by
    obtain ⟨t1, h1⟩ := yf_gen_bstmt_loop_appends G items current (d + 1)
    simp only at h1
    exact ⟨"\x7b" ++ t1 ++ ("" ++ "\n" ++ yfg_tabs d) ++ "\x7d", fun out => by
      simp [yf_gen_bstmt, fprintf_mk, indent_mk, dedent_mk, h1, yfg_print_line_mk,
        String.append_assoc]⟩
theorem yf_gen_bstmt_loop_appends (G : yfg_env) :
    ∀ (l : List yf_ast_node) (k : Nat) (d : Int),
      yfg_appends (fun st => (yf_gen_bstmt_loop G l k st).2) d
  | [], _, d => ⟨"", fun out => by simp [yf_gen_bstmt_loop]⟩
  | child :: rest, k + 1, d => by
    obtain ⟨t, ht⟩ := yf_gen_bstmt_loop_appends G rest k d
    exact ⟨t, fun out => by simpa [yf_gen_bstmt_loop] using ht out⟩
  | child :: rest, 0, d => by
    obtain ⟨t1, h1⟩ := yf_gen_node_appends G child d
    obtain ⟨t2, h2⟩ := yf_gen_bstmt_loop_appends G rest 0 d
    simp only at h1 h2
    exact ⟨("" ++ "\n" ++ yfg_tabs d) ++ t1 ++ ";" ++ t2, fun out => by
      simp [yf_gen_bstmt_loop, h1, h2, yfg_print_line_mk, fprintf_mk, String.append_assoc]⟩
theorem yf_gen_return_appends (G : yfg_env) :
    ∀ (p : yfa_return) (d : Int), yfg_appends (fun st => (yf_gen_return G p st).2) d
  | .mk none, d => ⟨"return ", fun out => by simp [yf_gen_return, fprintf_mk]⟩
  | .mk (some e), d => by
    obtain ⟨t1, h1⟩ := yf_gen_node_appends G e d
    simp only at h1
    exact ⟨"return " ++ t1, fun out => by
      simp [yf_gen_return, fprintf_mk, h1, String.append_assoc]⟩
theorem yf_gen_if_appends (G : yfg_env) :
    ∀ (p : yfa_if) (d : Int), yfg_appends (fun st => (yf_gen_if G p st).2) d
  | .mk cond code none, d => by
    obtain ⟨t1, h1⟩ := yf_gen_node_appends G cond d
    obtain ⟨t2, h2⟩ := yf_gen_node_appends G code d
    simp only at h1 h2
    exact ⟨"if (" ++ t1 ++ (") \x7b" ++ "\n" ++ yfg_tabs d) ++ t2
        ++ (";" ++ "\n" ++ yfg_tabs d) ++ "\x7d", fun out => by
      simp [yf_gen_if, fprintf_mk, h1, h2, yfg_print_line_mk, String.append_assoc]⟩
  | .mk cond code (some e), d => by
    obtain ⟨t1, h1⟩ := yf_gen_node_appends G cond d
    obtain ⟨t2, h2⟩ := yf_gen_node_appends G code d
    obtain ⟨t3, h3⟩ := yf_gen_node_appends G e d
    simp only at h1 h2 h3
    exact ⟨"if (" ++ t1 ++ (") \x7b" ++ "\n" ++ yfg_tabs d) ++ t2
        ++ (";" ++ "\n" ++ yfg_tabs d) ++ "\x7d" ++ (" else \x7b" ++ "\n" ++ yfg_tabs d) ++ t3
        ++ (";" ++ "\n" ++ yfg_tabs d) ++ "\x7d", fun out => by
      simp [yf_gen_if, fprintf_mk, h1, h2, h3, yfg_print_line_mk, String.append_assoc]⟩
end

/-! ### What each generator function appends, by name -/

theorem yf_gen_node_out (G : yfg_env) (n : yf_ast_node) (out : String) (d : Int) :
    (yf_gen_node G n ⟨out, d⟩).2 = ⟨out ++ yfg_text G n d, d⟩ := by
  obtain ⟨t, ht⟩ := yf_gen_node_appends G n d
  simp only at ht
  simp [yfg_text, ht]

theorem yf_gen_expr_out (G : yfg_env) (e : yfa_expr) (out : String) (d : Int) :
    (yf_gen_expr G e ⟨out, d⟩).2 = ⟨out ++ yfg_expr_text G e d, d⟩ := by
  obtain ⟨t, ht⟩ := yf_gen_expr_appends G e d
  simp only at ht
  simp [yfg_expr_text, ht]

theorem yfg_text_expr (G : yfg_env) (e : yfa_expr) (d : Int) :
    yfg_text G (.expr e) d = yfg_expr_text G e d := by
  simp [yfg_text, yfg_expr_text, yf_gen_node]

theorem yfg_text_funcdecl (G : yfg_env) (f : yfa_funcdecl) (d : Int) :
    yfg_text G (.funcdecl f) d = yfg_funcdecl_text G f d := by
  simp [yfg_text, yfg_funcdecl_text, yf_gen_node]

theorem yfg_text_bstmt (G : yfg_env) (b : yfa_bstmt) (d : Int) :
    yfg_text G (.bstmt b) d = yfg_bstmt_text G b d := by
  simp [yfg_text, yfg_bstmt_text, yf_gen_node]

/-! ### Joining texts with a separator, and the characters of a number -/

theorem string_join_cons (x : String) (l : List String) :
    String.join (x :: l) = x ++ String.join l := by
  apply String.ext
  simp [String.data_join]

theorem intercalate_go_eq (s : String) :
    ∀ (l : List String) (acc : String),
      String.intercalate.go acc s l = acc ++ String.join (l.map (fun x => s ++ x))
  | [], acc => by simp [String.intercalate.go, String.join]
  | x :: l, acc => by
    simp only [String.intercalate.go, List.map_cons]
    rw [intercalate_go_eq s l, string_join_cons]
    simp [String.append_assoc]

theorem intercalate_cons (s x : String) (l : List String) :
    s.intercalate (x :: l) = x ++ String.join (l.map (fun y => s ++ y)) := by
  simp [String.intercalate, intercalate_go_eq]

theorem ite_no_paren (c : Prop) [Decidable c] (a b : Char)
    (ha : a ≠ '(' ∧ a ≠ ')') (hb : b ≠ '(' ∧ b ≠ ')') :
    (if c then a else b) ≠ '(' ∧ (if c then a else b) ≠ ')' := by
  split <;> assumption

theorem paren_digit (n : Nat) : Nat.digitChar n ≠ '(' ∧ Nat.digitChar n ≠ ')' := by
  unfold Nat.digitChar
  repeat (first | exact ⟨by decide, by decide⟩ | refine ite_no_paren _ _ _ ⟨by decide, by decide⟩ ?_)

theorem toDigitsCore_no_paren : ∀ (fuel n : Nat) (acc : List Char),
    (∀ c ∈ acc, c ≠ '(' ∧ c ≠ ')') → ∀ c ∈ Nat.toDigitsCore 10 fuel n acc, c ≠ '(' ∧ c ≠ ')'
  | 0, n, acc, h => by simpa [Nat.toDigitsCore] using h
  | fuel + 1, n, acc, h => by
    have hd := paren_digit (n % 10)
    simp only [Nat.toDigitsCore]
    split_ifs
    · intro c hc
      simp only [List.mem_cons] at hc
      rcases hc with rfl | hc
      · exact hd
      · exact h c hc
    · apply toDigitsCore_no_paren fuel
      intro c hc
      simp only [List.mem_cons] at hc
      rcases hc with rfl | hc
      · exact hd
      · exact h c hc

theorem nat_repr_no_paren (n : Nat) : ∀ c ∈ (Nat.repr n).data, c ≠ '(' ∧ c ≠ ')' := by
  simp only [Nat.repr, Nat.toDigits, List.asString]
  exact toDigitsCore_no_paren _ _ _ (by simp)

theorem int_toString_no_paren (v : Int) : ∀ c ∈ (toString v).data, c ≠ '(' ∧ c ≠ ')' := by
  cases v with
  | ofNat n =>
    show ∀ c ∈ (Nat.repr n).data, _
    exact nat_repr_no_paren n
  | negSucc n =>
    show ∀ c ∈ ("-" ++ Nat.repr (n + 1)).data, _
    intro c hc
    simp only [String.data_append, List.mem_append] at hc
    rcases hc with hc | hc
    · simp at hc; subst hc; decide
    · exact nat_repr_no_paren _ c hc

/-! ### The loops of the generator -/

theorem yf_gen_expr_loop_sep (G : yfg_env) (d : Int) :
    ∀ (items : List yf_ast_node) (k : Nat) (out : String), k ≠ 0 →
      (yf_gen_expr_loop G items k ⟨out, d⟩).2 =
        ⟨out ++ String.join (items.map (fun a => ", " ++ yfg_text G a d)), d⟩
  | [], k, out, _ => by simp [yf_gen_expr_loop, String.join]
  | a :: rest, k, out, hk => by
    simp only [yf_gen_expr_loop, hk, ne_eq, not_false_eq_true, if_true, fprintf_mk,
      yf_gen_node_out, List.map_cons, string_join_cons]
    rw [yf_gen_expr_loop_sep G d rest (k + 1) _ (by omega)]
    simp [String.append_assoc]

theorem yf_gen_expr_loop_out (G : yfg_env) (d : Int) (items : List yf_ast_node)
    (out : String) :
    (yf_gen_expr_loop G items 0 ⟨out, d⟩).2 =
      ⟨out ++ ", ".intercalate (items.map (fun a => yfg_text G a d)), d⟩ := by
  cases items with
  | nil => simp [yf_gen_expr_loop, String.intercalate]
  | cons a rest =>
    simp only [yf_gen_expr_loop, ne_eq, not_true_eq_false, if_false, yf_gen_node_out,
      List.map_cons, intercalate_cons]
    rw [yf_gen_expr_loop_sep G d rest 1 _ (by omega)]
    simp [String.append_assoc, List.map_map, Function.comp_def]

theorem yf_gen_funcdecl_loop_sep (G : yfg_env) (d : Int) :
    ∀ (items : List yf_ast_node) (k : Nat) (out : String), k ≠ 0 →
      (yf_gen_funcdecl_loop G items k ⟨out, d⟩).2 =
        ⟨out ++ String.join (items.map (fun a => ", " ++ yfg_text G a d)), d⟩
  | [], k, out, _ => by simp [yf_gen_funcdecl_loop, String.join]
  | a :: rest, k, out, hk => by
    simp only [yf_gen_funcdecl_loop, hk, ne_eq, not_false_eq_true, if_true, fprintf_mk,
      yf_gen_node_out, List.map_cons, string_join_cons]
    rw [yf_gen_funcdecl_loop_sep G d rest (k + 1) _ (by omega)]
    simp [String.append_assoc]

theorem yf_gen_funcdecl_loop_out (G : yfg_env) (d : Int) (items : List yf_ast_node)
    (out : String) :
    (yf_gen_funcdecl_loop G items 0 ⟨out, d⟩).2 =
      ⟨out ++ ", ".intercalate (items.map (fun a => yfg_text G a d)), d⟩ := by
  cases items with
  | nil => simp [yf_gen_funcdecl_loop, String.intercalate]
  | cons a rest =>
    simp only [yf_gen_funcdecl_loop, ne_eq, not_true_eq_false, if_false, yf_gen_node_out,
      List.map_cons, intercalate_cons]
    rw [yf_gen_funcdecl_loop_sep G d rest 1 _ (by omega)]
    simp [String.append_assoc, List.map_map, Function.comp_def]

theorem yf_gen_bstmt_loop_out (G : yfg_env) (d : Int) :
    ∀ (items : List yf_ast_node) (k : Nat) (out : String),
      (yf_gen_bstmt_loop G items k ⟨out, d⟩).2 =
        ⟨out ++ String.join ((items.drop k).map
          (fun s => "\n" ++ yfg_tabs d ++ yfg_text G s d ++ ";")), d⟩
  | [], k, out => by simp [yf_gen_bstmt_loop, String.join]
  | s :: rest, k + 1, out => by
    simp only [yf_gen_bstmt_loop, List.drop_succ_cons]
    exact yf_gen_bstmt_loop_out G d rest k out
  | s :: rest, 0, out => by
    simp only [yf_gen_bstmt_loop, yfg_print_line_mk, yf_gen_node_out, fprintf_mk,
      List.drop_zero, List.map_cons, string_join_cons]
    rw [yf_gen_bstmt_loop_out G d rest 0]
    simp [String.append_assoc]

theorem yfg_expr_text_call (G : yfg_env) (name : yfs_fn) (items : List yf_ast_node)
    (cur : Nat) (d : Int) :
    yfg_expr_text G (.call name ⟨items, cur⟩) d =
      "(" ++ name.name ++ "(" ++ ", ".intercalate (items.map (fun a => yfg_text G a d))
        ++ ")" ++ ")" := by
  simp [yfg_expr_text, yf_gen_expr, fprintf_mk, yf_gen_expr_loop_out, String.append_assoc]

theorem yfg_expr_text_binary (G : yfg_env) (l : yfa_expr) (op : yf_operator) (r : yfa_expr)
    (d : Int) :
    yfg_expr_text G (.binary l op r) d =
      "(" ++ yfg_expr_text G l d ++ " " ++ G.get_op_string op ++ " " ++ yfg_expr_text G r d
        ++ ")" := by
  have h : (yf_gen_expr G (.binary l op r) ⟨"", d⟩).2 =
      ⟨"(" ++ yfg_expr_text G l d ++ " " ++ G.get_op_string op ++ " " ++ yfg_expr_text G r d
        ++ ")", d⟩ := by
    simp only [yf_gen_expr, fprintf_mk, yf_gen_expr_out]
    simp [String.append_assoc]
  show (yf_gen_expr G (.binary l op r) ⟨"", d⟩).2.out = _
  rw [h]

theorem yfg_funcdecl_text_eq (G : yfg_env) (name : yfs_fn) (items : List yf_ast_node)
    (cur : Nat) (body : yf_ast_node) (d : Int) :
    yfg_funcdecl_text G (.mk name ⟨items, cur⟩ body) d =
      G.yfg_ctype name.rtype ++ " /* " ++ name.rtype.name ++ " */ " ++ name.name ++ "("
        ++ ", ".intercalate (items.map (fun p => yfg_text G p d)) ++ ") "
        ++ yfg_text G body d := by
  simp [yfg_funcdecl_text, yf_gen_funcdecl, fprintf_mk, yf_gen_funcdecl_loop_out,
    yf_gen_node_out, String.append_assoc]

theorem yfg_bstmt_text_eq (G : yfg_env) (items : List yf_ast_node) (cur : Nat) (d : Int) :
    yfg_bstmt_text G (.mk ⟨items, cur⟩) d =
      "\x7b" ++ String.join ((items.drop cur).map
          (fun s => "\n" ++ yfg_tabs (d + 1) ++ yfg_text G s (d + 1) ++ ";"))
        ++ "\n" ++ yfg_tabs d ++ "\x7d" := by
  simp [yfg_bstmt_text, yf_gen_bstmt, fprintf_mk, indent_mk, dedent_mk, yfg_print_line_mk,
    yf_gen_bstmt_loop_out, String.append_assoc]

/-! ### Reading back the parentheses of a generated expression -/

theorem yfg_parse_skip : ∀ (s rest : List Char) (top : List yfg_paren_tree)
    (stack : List (List yfg_paren_tree)), (∀ c ∈ s, c ≠ '(' ∧ c ≠ ')') →
    yfg_parse_parens (s ++ rest) top stack = yfg_parse_parens rest top stack
  | [], rest, top, stack, _ => rfl
  | c :: s, rest, top, stack, h => by
    have hc := h c (List.mem_cons_self c s)
    simp only [List.cons_append, yfg_parse_parens, hc.1, hc.2, if_false]
    exact yfg_parse_skip s rest top stack (fun x hx => h x (List.mem_cons_of_mem c hx))

theorem yfg_no_parens_iff (s : String) :
    yfg_no_parens s = true ↔ ∀ c ∈ s.data, c ≠ '(' ∧ c ≠ ')' := by
  simp [yfg_no_parens, List.all_eq_true]

theorem yfg_parse_skip_str (s : String) (h : yfg_no_parens s = true) (rest : List Char)
    (top : List yfg_paren_tree) (stack : List (List yfg_paren_tree)) :
    yfg_parse_parens (s.data ++ rest) top stack = yfg_parse_parens rest top stack :=
  yfg_parse_skip s.data rest top stack ((yfg_no_parens_iff s).1 h)

theorem yfg_parse_open (rest : List Char) (top : List yfg_paren_tree)
    (stack : List (List yfg_paren_tree)) :
    yfg_parse_parens ('(' :: rest) top stack = yfg_parse_parens rest [] (top :: stack) := by
  simp [yfg_parse_parens]

theorem yfg_parse_close (rest : List Char) (top up : List yfg_paren_tree)
    (stack : List (List yfg_paren_tree)) :
    yfg_parse_parens (')' :: rest) top (up :: stack) =
      yfg_parse_parens rest (up ++ [.node top]) stack := by
  simp [yfg_parse_parens]

theorem yfg_parse_space (rest : List Char) (top : List yfg_paren_tree)
    (stack : List (List yfg_paren_tree)) :
    yfg_parse_parens (' ' :: rest) top stack = yfg_parse_parens rest top stack := by
  simp [yfg_parse_parens]

theorem yfg_parse_comma (rest : List Char) (top : List yfg_paren_tree)
    (stack : List (List yfg_paren_tree)) :
    yfg_parse_parens (',' :: rest) top stack = yfg_parse_parens rest top stack := by
  simp [yfg_parse_parens]

mutual
theorem yfg_parse_expr (G : yfg_env) (hop : ∀ op, yfg_no_parens (G.get_op_string op) = true)
    (d : Int) : ∀ (e : yfa_expr), yfa_expr_plain e = true →
    ∀ (rest : List Char) (top : List yfg_paren_tree) (stack : List (List yfg_paren_tree)),
      yfg_parse_parens ((yfg_expr_text G e d).data ++ rest) top stack =
        yfg_parse_parens rest (top ++ [yfg_expr_shape e]) stack
  | .literal v, _, rest, top, stack => by
    have ht : yfg_expr_text G (.literal v) d = "(" ++ toString v ++ ")" := by
      simp [yfg_expr_text, yf_gen_expr, fprintf_mk, String.append_assoc]
    have hv : yfg_no_parens (toString v) = true :=
      (yfg_no_parens_iff _).2 (int_toString_no_paren v)
    rw [ht]
    simp only [String.data_append, List.append_assoc, List.cons_append, List.nil_append,
      List.singleton_append, yfg_parse_space, yfg_parse_comma, yfg_parse_open, yfg_parse_skip_str _ hv,
      yfg_parse_close, yfg_expr_shape]
  | .identifier sym, h, rest, top, stack => by
    have ht : yfg_expr_text G (.identifier sym) d = "(" ++ sym.name ++ ")" := by
      simp [yfg_expr_text, yf_gen_expr, fprintf_mk, String.append_assoc]
    have hv : yfg_no_parens sym.name = true := by simpa [yfa_expr_plain] using h
    rw [ht]
    simp only [String.data_append, List.append_assoc, List.cons_append, List.nil_append,
      List.singleton_append, yfg_parse_space, yfg_parse_comma, yfg_parse_open, yfg_parse_skip_str _ hv,
      yfg_parse_close, yfg_expr_shape]
  | .binary l op r, h, rest, top, stack => by
    have hl : yfa_expr_plain l = true := by
      simp only [yfa_expr_plain, Bool.and_eq_true] at h; exact h.1
    have hr : yfa_expr_plain r = true := by
      simp only [yfa_expr_plain, Bool.and_eq_true] at h; exact h.2
    rw [yfg_expr_text_binary]
    simp only [String.data_append, List.append_assoc, List.cons_append, List.nil_append,
      List.singleton_append, yfg_parse_space, yfg_parse_comma, yfg_parse_open,
      yfg_parse_expr G hop d l hl, yfg_parse_skip_str _ (hop op),
      yfg_parse_expr G hop d r hr, yfg_parse_close, yfg_expr_shape, List.nil_append,
      List.singleton_append]
  | .call name ⟨items, cur⟩, h, rest, top, stack => by
    have hn : yfg_no_parens name.name = true := by
      simp only [yfa_expr_plain, Bool.and_eq_true] at h; exact h.1
    have hi : yfa_args_plain items = true := by
      simp only [yfa_expr_plain, Bool.and_eq_true] at h; exact h.2
    rw [yfg_expr_text_call]
    simp only [String.data_append, List.append_assoc, List.cons_append, List.nil_append,
      List.singleton_append, yfg_parse_space, yfg_parse_comma, yfg_parse_open,
      yfg_parse_skip_str _ hn, yfg_parse_args G hop d items hi, yfg_parse_close,
      yfg_expr_shape, List.nil_append]
theorem yfg_parse_args (G : yfg_env) (hop : ∀ op, yfg_no_parens (G.get_op_string op) = true)
    (d : Int) : ∀ (items : List yf_ast_node), yfa_args_plain items = true →
    ∀ (rest : List Char) (top : List yfg_paren_tree) (stack : List (List yfg_paren_tree)),
      yfg_parse_parens
          ((", ".intercalate (items.map (fun a => yfg_text G a d))).data ++ rest) top stack =
        yfg_parse_parens rest (top ++ yfg_args_shape items) stack
  | [], _, rest, top, stack => by
    simp [String.intercalate, yfg_args_shape]
  | .expr e :: more, h, rest, top, stack => by
    have he : yfa_expr_plain e = true := by
      simp only [yfa_args_plain, Bool.and_eq_true] at h; exact h.1
    have hm : yfa_args_plain more = true := by
      simp only [yfa_args_plain, Bool.and_eq_true] at h; exact h.2
    simp only [List.map_cons, intercalate_cons, List.map_map, Function.comp_def,
      String.data_append, List.append_assoc,
      List.cons_append, List.nil_append, List.singleton_append, yfg_parse_space, yfg_parse_comma,
      yfg_text_expr, yfg_parse_expr G hop d e he, yfg_args_shape]
    rw [yfg_parse_more G hop d more hm]
    simp
  | .program _ :: _, h, _, _, _ => by simp [yfa_args_plain] at h
  | .vardecl _ :: _, h, _, _, _ => by simp [yfa_args_plain] at h
  | .funcdecl _ :: _, h, _, _, _ => by simp [yfa_args_plain] at h
  | .bstmt _ :: _, h, _, _, _ => by simp [yfa_args_plain] at h
  | .ret _ :: _, h, _, _, _ => by simp [yfa_args_plain] at h
  | .ifstmt _ :: _, h, _, _, _ => by simp [yfa_args_plain] at h
  | .empty :: _, h, _, _, _ => by simp [yfa_args_plain] at h
theorem yfg_parse_more (G : yfg_env) (hop : ∀ op, yfg_no_parens (G.get_op_string op) = true)
    (d : Int) : ∀ (items : List yf_ast_node), yfa_args_plain items = true →
    ∀ (rest : List Char) (top : List yfg_paren_tree) (stack : List (List yfg_paren_tree)),
      yfg_parse_parens
          ((String.join (items.map (fun a => ", " ++ yfg_text G a d))).data ++ rest) top stack =
        yfg_parse_parens rest (top ++ yfg_args_shape items) stack
  | [], _, rest, top, stack => by
    simp [String.join, yfg_args_shape]
  | .expr e :: more, h, rest, top, stack => by
    have he : yfa_expr_plain e = true := by
      simp only [yfa_args_plain, Bool.and_eq_true] at h; exact h.1
    have hm : yfa_args_plain more = true := by
      simp only [yfa_args_plain, Bool.and_eq_true] at h; exact h.2
    simp only [List.map_cons, string_join_cons, String.data_append, List.append_assoc,
      List.cons_append, List.nil_append, List.singleton_append, yfg_parse_space, yfg_parse_comma,
      yfg_text_expr, yfg_parse_expr G hop d e he, yfg_args_shape]
    rw [yfg_parse_more G hop d more hm]
    simp
  | .program _ :: _, h, _, _, _ => by simp [yfa_args_plain] at h
  | .vardecl _ :: _, h, _, _, _ => by simp [yfa_args_plain] at h
  | .funcdecl _ :: _, h, _, _, _ => by simp [yfa_args_plain] at h
  | .bstmt _ :: _, h, _, _, _ => by simp [yfa_args_plain] at h
  | .ret _ :: _, h, _, _, _ => by simp [yfa_args_plain] at h
  | .ifstmt _ :: _, h, _, _, _ => by simp [yfa_args_plain] at h
  | .empty :: _, h, _, _, _ => by simp [yfa_args_plain] at h
end

theorem yfg_shape_call_free : ∀ (e : yfa_expr), yfa_expr_call_free e = true →
    yfg_expr_shape e = yfa_expr_shape e
  | .literal _, _ => by simp [yfg_expr_shape, yfa_expr_shape]
  | .identifier _, _ => by simp [yfg_expr_shape, yfa_expr_shape]
  | .binary l _ r, h => by
    simp only [yfa_expr_call_free, Bool.and_eq_true] at h
    simp [yfg_expr_shape, yfa_expr_shape, yfg_shape_call_free l h.1, yfg_shape_call_free r h.2]
  | .call _ _, h => by simp [yfa_expr_call_free] at h

/-! ### The loop of `validate_program` -/

theorem validate_program_loop_eq (X : yfv_env) (halloc : ∀ s, X.yf_malloc s = true) :
    ∀ (items : List yf_parse_node) (v : yfv_validator) (decls : yf_list yf_ast_node)
      (err : Int),
      validate_program_loop X items v decls err =
        (yfv_decl_results X items v).map (fun rs =>
          ⟨if rs.all yfv_result.ok then err else 1, yfv_after v rs,
            .program (.mk ⟨decls.items ++ (rs.filter yfv_result.ok).map (fun r => r.anode),
              decls.current⟩)⟩)
  | [], v, decls, err => by
    simp [validate_program_loop, yfv_decl_results, yfv_after]
  | cnode :: rest, v, decls, err => by
    simp only [validate_program_loop, yfv_decl_results, halloc]
    cases hn : validate_node X cnode v none none with
    | none => simp
    | some rf =>
      obtain ⟨r, f⟩ := rf
      by_cases hc : r.code = 0
      · simp [hc, validate_program_loop_eq X halloc rest, yf_list_add, yfv_after,
          yfv_result.ok, Function.comp_def]
      · simp [hc, validate_program_loop_eq X halloc rest, yfv_after, yfv_result.ok,
          Function.comp_def]

theorem yfv_decl_results_length (X : yfv_env) :
    ∀ (items : List yf_parse_node) (v : yfv_validator) (rs : List yfv_result),
      yfv_decl_results X items v = some rs → rs.length = items.length
  | [], v, rs, h => by
    simp [yfv_decl_results] at h
    simp [← h]
  | cnode :: rest, v, rs, h => by
    simp only [yfv_decl_results] at h
    cases hn : validate_node X cnode v none none with
    | none => simp [hn] at h
    | some rf =>
      obtain ⟨r, f⟩ := rf
      simp only [hn, Option.map_eq_some'] at h
      obtain ⟨rs1, h1, rfl⟩ := h
      simp [yfv_decl_results_length X rest _ rs1 h1]

theorem yfv_after_all_ok : ∀ (rs : List yfv_result) (v : yfv_validator),
    rs.all yfv_result.ok = true →
      yfv_after v rs = ((rs.getLast?).map (fun r => r.validator)).getD v
  | [], v, _ => by simp [yfv_after]
  | r :: rs, v, h => by
    simp only [List.all_cons, Bool.and_eq_true] at h
    have h0 : r.code = 0 := by simpa [yfv_result.ok] using h.1
    have ih := yfv_after_all_ok rs r.validator h.2
    simp only [yfv_after, h0, ne_eq, not_true_eq_false, if_false]
    rw [ih, List.getLast?_cons]
    cases rs.getLast? <;> simp

/-! ### The error flag is never cleared -/

theorem validate_return_check_keeps (X : yfv_env) (v : yfv_validator) (loc : yf_loc)
    (aexpr : Option yf_ast_node) (type : Option yfs_type) (returns : Option Int)
    (r : yfv_result × Option Int)
    (h : validate_return_check X v loc aexpr type returns = some r)
    (hv : v.fdata.error = 1) : r.1.validator.fdata.error = 1 := by
  unfold validate_return_check at h
  cases type with
  | none => simp at h
  | some t =>
    simp only at h
    by_cases hc : validate_return_cond X v loc aexpr t = 0
    · cases returns with
      | none => simp [hc] at h
      | some f0 =>
        simp only [hc, ne_eq, not_true_eq_false, if_false, Option.some.injEq] at h
        subst h
        exact hv
    · simp only [hc, ne_eq, not_false_eq_true, if_true, Option.some.injEq] at h
      subst h
      rfl

theorem validate_return_keeps (X : yfv_env) (hk : yfv_keeps_error X) (v : yfv_validator)
    (loc : yf_loc) (c : yfcs_return) (type : Option yfs_type) (returns : Option Int)
    (r : yfv_result × Option Int) (h : validate_return X v loc c type returns = some r)
    (hv : v.fdata.error = 1) : r.1.validator.fdata.error = 1 := by
  obtain ⟨cexpr⟩ := c
  unfold validate_return at h
  simp only at h
  split at h
  · simp only [Option.some.injEq] at h
    subst h
    exact hv
  · cases cexpr with
    | none => exact validate_return_check_keeps X v loc none type returns r h hv
    | some ce =>
      simp only at h
      cases he : X.validate_expr v ce with
      | none => simp [he] at h
      | some r1 =>
        simp only [he] at h
        have h1 := hk.1 v ce r1 he hv
        split at h
        · simp only [Option.some.injEq] at h
          subst h
          rfl
        · exact validate_return_check_keeps X r1.validator loc _ type returns r h h1

mutual
theorem validate_node_keeps (X : yfv_env) (hk : yfv_keeps_error X) :
    ∀ (c : yf_parse_node) (v : yfv_validator) (t : Option yfs_type) (f : Option Int)
      (r : yfv_result × Option Int),
      validate_node X c v t f = some r → v.fdata.error = 1 → r.1.validator.fdata.error = 1
  | .expr loc e, v, t, f, r, h, hv => by
    simp only [validate_node, Option.map_eq_some'] at h
    obtain ⟨r1, h1, rfl⟩ := h
    exact hk.1 v _ r1 h1 hv
  | .vardecl loc tn n e, v, t, f, r, h, hv => by
    simp only [validate_node, Option.map_eq_some'] at h
    obtain ⟨r1, h1, rfl⟩ := h
    exact hk.2.1 v _ r1 h1 hv
  | .funcdecl loc tn n ps b, v, t, f, r, h, hv => by
    simp only [validate_node, Option.map_eq_some'] at h
    obtain ⟨r1, h1, rfl⟩ := h
    exact hk.2.2.1 v _ r1 h1 hv
  | .program loc p, v, t, f, r, h, hv => by
    simp only [validate_node, Option.map_eq_some'] at h
    obtain ⟨r1, h1, rfl⟩ := h
    exact validate_program_keeps X hk p v r1 h1 hv
  | .bstmt loc stmts, v, t, f, r, h, hv => by
    simp only [validate_node] at h
    exact hk.2.2.2.1 v _ t f r h hv
  | .ret loc c, v, t, f, r, h, hv => by
    simp only [validate_node] at h
    exact validate_return_keeps X hk v loc c t f r h hv
  | .ifstmt loc c a e, v, t, f, r, h, hv => by
    simp only [validate_node] at h
    exact hk.2.2.2.2 v _ t f r h hv
  | .empty loc, v, t, f, r, h, hv => by
    simp only [validate_node, Option.some.injEq] at h
    subst h
    exact hv
  | .unknown loc, v, t, f, r, h, hv => by
    simp only [validate_node, Option.some.injEq] at h
    subst h
    exact hv
theorem validate_program_keeps (X : yfv_env) (hk : yfv_keeps_error X) :
    ∀ (p : yfcs_program) (v : yfv_validator) (r : yfv_result),
      validate_program X p v = some r → v.fdata.error = 1 → r.validator.fdata.error = 1
  | .mk ⟨items, cur⟩, v, r, h, hv => by
    simp only [validate_program] at h
    exact validate_program_loop_keeps X hk items v _ _ r h hv
theorem validate_program_loop_keeps (X : yfv_env) (hk : yfv_keeps_error X) :
    ∀ (items : List yf_parse_node) (v : yfv_validator) (decls : yf_list yf_ast_node)
      (err : Int) (r : yfv_result),
      validate_program_loop X items v decls err = some r → v.fdata.error = 1 →
        r.validator.fdata.error = 1
  | [], v, decls, err, r, h, hv => by
    simp only [validate_program_loop, Option.some.injEq] at h
    subst h
    exact hv
  | cnode :: rest, v, decls, err, r, h, hv => by
    simp only [validate_program_loop] at h
    split at h
    · simp only [Option.some.injEq] at h
      subst h
      exact hv
    · cases hn : validate_node X cnode v none none with
      | none => simp [hn] at h
      | some rf =>
        obtain ⟨r1, f1⟩ := rf
        simp only [hn] at h
        have h1 := validate_node_keeps X hk cnode v none none (r1, f1) hn hv
        split at h
        · exact validate_program_loop_keeps X hk rest _ _ _ r h rfl
        · exact validate_program_loop_keeps X hk rest _ _ _ r h h1
end

theorem yfv_after_error (X : yfv_env) (hk : yfv_keeps_error X) :
    ∀ (items : List yf_parse_node) (v : yfv_validator) (rs : List yfv_result),
      yfv_decl_results X items v = some rs →
      (v.fdata.error = 1 ∨ rs.all yfv_result.ok = false) →
        (yfv_after v rs).fdata.error = 1
  | [], v, rs, h, hv => by
    simp only [yfv_decl_results, Option.some.injEq] at h
    subst h
    simpa [yfv_after] using hv
  | cnode :: rest, v, rs, h, hv => by
    simp only [yfv_decl_results] at h
    cases hn : validate_node X cnode v none none with
    | none => simp [hn] at h
    | some rf =>
      obtain ⟨r, f⟩ := rf
      simp only [hn, Option.map_eq_some'] at h
      obtain ⟨rs1, h1, rfl⟩ := h
      simp only [yfv_after]
      apply yfv_after_error X hk rest _ rs1 h1
      by_cases hc : r.code = 0
      · simp only [hc, ne_eq, not_true_eq_false, if_false]
        rcases hv with hv | hv
        · exact Or.inl (validate_node_keeps X hk cnode v none none (r, f) hn hv)
        · right
          simpa [yfv_result.ok, hc] using hv
      · left
        simp [hc, yfv_set_error]

/-! ## The claims -/

/-- C1. For every program parse tree whose declarations can all be validated
without a null dereference, and when allocation succeeds, `validate_program`
returns, every declaration is validated (also those after a failing one), and
the declaration list of the AST program it writes holds exactly the AST nodes
of the declarations whose validation returned 0, in source order, with no slot
for the failing ones. -/
theorem validate_program_keeps_valid_decls (X : yfv_env)
    (halloc : ∀ s, X.yf_malloc s = true) (items : List yf_parse_node) (cur : Nat)
    (v : yfv_validator) (rs : List yfv_result)
    (hrs : yfv_decl_results X items v = some rs) :
    rs.length = items.length ∧
    ∃ res, validate_program X (.mk ⟨items, cur⟩) v = some res ∧
      res.anode =
        .program (.mk ⟨(rs.filter yfv_result.ok).map (fun r => r.anode), 0⟩) := by
  refine ⟨yfv_decl_results_length X items v rs hrs, ?_⟩
  simp [validate_program, validate_program_loop_eq X halloc, hrs, yf_list_init]

theorem validate_program_keeps_valid_decls_witness :
    ∃ res, validate_program yft_env yft_program yft_validator = some res ∧
      res.anode = .program (.mk ⟨[.vardecl (.mk ⟨"x", yft_int⟩ none)], 0⟩) :=
  (validate_program_keeps_valid_decls yft_env (fun _ => rfl)
    [.vardecl yft_loc "string" "s" none, .vardecl yft_loc "int" "x" none] 0 yft_validator
    [⟨1, yft_validator, .empty⟩,
     ⟨0, yfv_set_error yft_validator, .vardecl (.mk ⟨"x", yft_int⟩ none)⟩] rfl).2

/-- C2. When allocation succeeds and every declaration can be validated
without a null dereference, `validate_program` returns 1 exactly when at least
one top-level declaration fails validation, and then the error flag is 1 in
the state it leaves (the validators of other files never clearing a set flag);
when every declaration validates it returns 0 and leaves the validator state
exactly as the last declaration left it, so it does not set the flag itself. -/
theorem validate_program_error_flag (X : yfv_env)
    (halloc : ∀ s, X.yf_malloc s = true) (items : List yf_parse_node) (cur : Nat)
    (v : yfv_validator) (rs : List yfv_result)
    (hrs : yfv_decl_results X items v = some rs) :
    ∃ res, validate_program X (.mk ⟨items, cur⟩) v = some res ∧
      (res.code = 1 ↔ ∃ r ∈ rs, r.code ≠ 0) ∧
      ((∃ r ∈ rs, r.code ≠ 0) → yfv_keeps_error X → res.validator.fdata.error = 1) ∧
      ((∀ r ∈ rs, r.code = 0) →
        res.code = 0 ∧ res.validator = ((rs.getLast?).map (fun r => r.validator)).getD v) := by
  have hall : rs.all yfv_result.ok = true ↔ ∀ r ∈ rs, r.code = 0 := by
    simp [List.all_eq_true, yfv_result.ok]
  have hp : validate_program X (.mk ⟨items, cur⟩) v =
      some ⟨if rs.all yfv_result.ok then 0 else 1, yfv_after v rs,
        .program (.mk ⟨(yf_list_init : yf_list yf_ast_node).items ++
          (rs.filter yfv_result.ok).map (fun r => r.anode),
          (yf_list_init : yf_list yf_ast_node).current⟩)⟩ := by
    simp only [validate_program, validate_program_loop_eq X halloc, hrs, Option.map_some']
  refine ⟨_, hp, ?_, ?_, ?_⟩
  · show (if rs.all yfv_result.ok = true then (0 : Int) else 1) = 1 ↔ _
    by_cases h : rs.all yfv_result.ok = true
    · simp only [h, if_true]
      constructor
      · intro h0; exact absurd h0 (by decide)
      · rintro ⟨r, hr, hne⟩
        exact absurd ((hall.1 h) r hr) hne
    · simp only [h, if_false]
      refine ⟨fun _ => ?_, fun _ => rfl⟩
      by_contra hcon
      apply h
      rw [hall]
      intro r hr
      by_contra hne
      exact hcon ⟨r, hr, hne⟩
  · rintro ⟨r, hr, hne⟩ hk
    apply yfv_after_error X hk items v rs hrs
    right
    cases hb : rs.all yfv_result.ok with
    | false => rfl
    | true => exact absurd ((hall.1 hb) r hr) hne
  · intro h
    have hb := hall.2 h
    refine ⟨?_, yfv_after_all_ok rs v hb⟩
    show (if rs.all yfv_result.ok = true then (0 : Int) else 1) = 0
    simp only [hb, if_true]

theorem validate_program_error_flag_witness :
    ∃ res, validate_program yft_env yft_program yft_validator = some res ∧
      res.code = 1 ∧ res.validator.fdata.error = 1 := by
  obtain ⟨res, h1, h2, h3, _⟩ := validate_program_error_flag yft_env (fun _ => rfl)
    [.vardecl yft_loc "string" "s" none, .vardecl yft_loc "int" "x" none] 0 yft_validator
    [⟨1, yft_validator, .empty⟩,
     ⟨0, yfv_set_error yft_validator, .vardecl (.mk ⟨"x", yft_int⟩ none)⟩] rfl
  have hfail : ∃ r ∈ [(⟨1, yft_validator, .empty⟩ : yfv_result),
      ⟨0, yfv_set_error yft_validator, .vardecl (.mk ⟨"x", yft_int⟩ none)⟩], r.code ≠ 0 :=
    ⟨⟨1, yft_validator, .empty⟩, by simp, by decide⟩
  have hkeep : yfv_keeps_error yft_env := by
    refine ⟨?_, ?_, ?_, ?_, ?_⟩
    · intro v c r h hv
      simp only [yft_env] at h
      split at h <;> (simp only [Option.some.injEq] at h; subst h; exact hv)
    · intro v c r h hv
      simp only [yft_env] at h
      split at h
      · split at h <;> (simp only [Option.some.injEq] at h; subst h; exact hv)
      · simp only [Option.some.injEq] at h; subst h; exact hv
    · intro v c r h hv
      simp only [yft_env, Option.some.injEq] at h
      subst h; exact hv
    · intro v c t f r h hv
      simp only [yft_env, Option.some.injEq] at h
      subst h; exact hv
    · intro v c t f r h hv
      simp only [yft_env, Option.some.injEq] at h
      subst h; exact hv
  exact ⟨res, h1, h2.2 hfail, h3 hfail hkeep⟩

/-- C3. With an enclosing return type of size 0 (void) and a successful
allocation: a return that carries an expression which itself validates fails,
`validate_return` returns 1 and the error flag is set; a bare return succeeds,
`validate_return` returns 0 (and the has-returned flag becomes 1). -/
theorem validate_return_void (X : yfv_env) (v : yfv_validator) (loc : yf_loc)
    (t : yfs_type) (hm : X.yf_malloc v = true) (ht : t.size = 0) :
    (∀ (ce : yf_parse_node) (r : yfv_result) (returns : Option Int),
      X.validate_expr v ce = some r → r.code = 0 →
        ∃ res, validate_return X v loc (.mk (some ce)) (some t) returns = some (res, returns) ∧
          res.code = 1 ∧ res.validator.fdata.error = 1) ∧
    (∀ f0 : Int, validate_return X v loc (.mk none) (some t) (some f0) =
      some (⟨0, v, .ret (.mk none)⟩, some 1)) := by
  constructor
  · intro ce r returns he hr
    refine ⟨⟨1, yfv_set_error r.validator, .ret (.mk (some r.anode))⟩, ?_, rfl, rfl⟩
    simp [validate_return, hm, he, hr, validate_return_check, validate_return_cond, ht]
  · intro f0
    simp [validate_return, hm, validate_return_check, validate_return_cond, ht]

theorem validate_return_void_witness :
    (∃ res, validate_return yft_env yft_validator yft_loc
        (.mk (some (.expr yft_loc (.value "1")))) (some yft_void) (some 0) = some (res, some 0) ∧
        res.code = 1 ∧ res.validator.fdata.error = 1) ∧
    validate_return yft_env yft_validator yft_loc (.mk none) (some yft_void) (some 0) =
      some (⟨0, yft_validator, .ret (.mk none)⟩, some 1) :=
  ⟨(validate_return_void yft_env yft_validator yft_loc yft_void rfl rfl).1
      (.expr yft_loc (.value "1")) ⟨0, yft_validator, .expr (.literal 1)⟩ (some 0) rfl rfl,
    (validate_return_void yft_env yft_validator yft_loc yft_void rfl rfl).2 0⟩

/-- C4. With an enclosing return type of nonzero size, a successful
allocation and a has-returned flag to write to: when the return expression is
present and validates, `validate_return` returns 0 exactly when
`yfs_output_diagnostics`, given the inferred type of the expression, the
enclosing return type and the location of the return node, reports 0, and it
returns 1 with the error flag set when the check reports a mismatch. The
inferred type of an expression is consulted only when the expression is
present: for a bare return the check is made with the registered type `void`
in its place. -/
theorem validate_return_nonvoid (X : yfv_env) (v : yfv_validator) (loc : yf_loc)
    (t : yfs_type) (f0 : Int) (hm : X.yf_malloc v = true) (ht : t.size ≠ 0) :
    (∀ (ce : yf_parse_node) (r : yfv_result),
      X.validate_expr v ce = some r → r.code = 0 →
        ∃ res fl, validate_return X v loc (.mk (some ce)) (some t) (some f0) = some (res, fl) ∧
          (res.code = 0 ↔
            X.yfs_output_diagnostics (X.yfse_get_expr_type r.anode r.validator.fdata) t
              r.validator.fdata loc = 0) ∧
          (X.yfs_output_diagnostics (X.yfse_get_expr_type r.anode r.validator.fdata) t
              r.validator.fdata loc ≠ 0 →
            res.code = 1 ∧ res.validator.fdata.error = 1)) ∧
    (∃ res fl, validate_return X v loc (.mk none) (some t) (some f0) = some (res, fl) ∧
      (res.code = 0 ↔
        X.yfs_output_diagnostics (X.yfv_get_type_s v.fdata "void") t v.fdata loc = 0) ∧
      (X.yfs_output_diagnostics (X.yfv_get_type_s v.fdata "void") t v.fdata loc ≠ 0 →
        res.code = 1 ∧ res.validator.fdata.error = 1)) := by
  constructor
  · intro ce r he hr
    by_cases hd : X.yfs_output_diagnostics (X.yfse_get_expr_type r.anode r.validator.fdata) t
        r.validator.fdata loc = 0
    · refine ⟨⟨0, r.validator, .ret (.mk (some r.anode))⟩, some 1, ?_, ?_, ?_⟩
      · simp [validate_return, hm, he, hr, validate_return_check, validate_return_cond, ht, hd]
      · simp [hd]
      · intro h; exact absurd hd h
    · refine ⟨⟨1, yfv_set_error r.validator, .ret (.mk (some r.anode))⟩, some f0, ?_, ?_, ?_⟩
      · simp [validate_return, hm, he, hr, validate_return_check, validate_return_cond, ht, hd]
      · simp [hd]
      · intro _; exact ⟨rfl, rfl⟩
  · by_cases hd : X.yfs_output_diagnostics (X.yfv_get_type_s v.fdata "void") t v.fdata loc = 0
    · refine ⟨⟨0, v, .ret (.mk none)⟩, some 1, ?_, ?_, ?_⟩
      · simp [validate_return, hm, validate_return_check, validate_return_cond, ht, hd]
      · simp [hd]
      · intro h; exact absurd hd h
    · refine ⟨⟨1, yfv_set_error v, .ret (.mk none)⟩, some f0, ?_, ?_, ?_⟩
      · simp [validate_return, hm, validate_return_check, validate_return_cond, ht, hd]
      · simp [hd]
      · intro _; exact ⟨rfl, rfl⟩

theorem validate_return_nonvoid_witness :
    ∃ res fl, validate_return yft_env yft_validator yft_loc
        (.mk (some (.expr yft_loc (.value "1")))) (some yft_int) (some 0) = some (res, fl) ∧
      (res.code = 0 ↔
        yft_env.yfs_output_diagnostics
          (yft_env.yfse_get_expr_type (.expr (.literal 1)) yft_validator.fdata) yft_int
          yft_validator.fdata yft_loc = 0) ∧
      (yft_env.yfs_output_diagnostics
          (yft_env.yfse_get_expr_type (.expr (.literal 1)) yft_validator.fdata) yft_int
          yft_validator.fdata yft_loc ≠ 0 →
        res.code = 1 ∧ res.validator.fdata.error = 1) :=
  (validate_return_nonvoid yft_env yft_validator yft_loc yft_int 0 rfl (by decide)).1
    (.expr yft_loc (.value "1")) ⟨0, yft_validator, .expr (.literal 1)⟩ rfl rfl

/-- C5. The has-returned flag passed in by the enclosing function is 1 after
`validate_return`, whatever its value was before, in both branches: for a bare
return under a return type of size 0, and for an expression that validates
and is compatible under a return type of nonzero size; more generally the flag
is 1 whenever `validate_return` returns 0. -/
theorem validate_return_sets_flag (X : yfv_env) (v : yfv_validator) (loc : yf_loc)
    (t : yfs_type) (f0 : Int) (hm : X.yf_malloc v = true) :
    (t.size = 0 →
      ∃ res, validate_return X v loc (.mk none) (some t) (some f0) = some (res, some 1) ∧
        res.code = 0) ∧
    (∀ (ce : yf_parse_node) (r : yfv_result), t.size ≠ 0 →
      X.validate_expr v ce = some r → r.code = 0 →
      X.yfs_output_diagnostics (X.yfse_get_expr_type r.anode r.validator.fdata) t
        r.validator.fdata loc = 0 →
      ∃ res, validate_return X v loc (.mk (some ce)) (some t) (some f0) = some (res, some 1) ∧
        res.code = 0) ∧
    (∀ (c : yfcs_return) (res : yfv_result) (fl : Option Int),
      validate_return X v loc c (some t) (some f0) = some (res, fl) → res.code = 0 →
        fl = some 1) := by
  refine ⟨?_, ?_, ?_⟩
  · intro ht
    exact ⟨⟨0, v, .ret (.mk none)⟩,
      by simp [validate_return, hm, validate_return_check, validate_return_cond, ht], rfl⟩
  · intro ce r ht he hr hd
    exact ⟨⟨0, r.validator, .ret (.mk (some r.anode))⟩,
      by simp [validate_return, hm, he, hr, validate_return_check, validate_return_cond, ht, hd],
      rfl⟩
  · intro c res fl h hcode
    obtain ⟨cexpr⟩ := c
    have key : ∀ (w : yfv_validator) (a : Option yf_ast_node),
        validate_return_check X w loc a (some t) (some f0) = some (res, fl) → fl = some 1 := by
      intro w a hw
      simp only [validate_return_check] at hw
      split at hw
      · simp only [Option.some.injEq, Prod.mk.injEq] at hw
        rw [← hw.1] at hcode
        exact absurd hcode (by simp)
      · simp only [Option.some.injEq, Prod.mk.injEq] at hw
        exact hw.2.symm
    simp only [validate_return, hm, Bool.true_eq_false, if_false] at h
    cases cexpr with
    | none => exact key v none h
    | some ce =>
      simp only at h
      cases he : X.validate_expr v ce with
      | none => simp [he] at h
      | some r =>
        simp only [he] at h
        split at h
        · simp only [Option.some.injEq, Prod.mk.injEq] at h
          rw [← h.1] at hcode
          exact absurd hcode (by simp)
        · exact key r.validator _ h

theorem validate_return_sets_flag_witness :
    (∃ res, validate_return yft_env yft_validator yft_loc (.mk none) (some yft_void) (some 0) =
        some (res, some 1) ∧ res.code = 0) ∧
    (∃ res, validate_return yft_env yft_validator yft_loc
        (.mk (some (.expr yft_loc (.value "1")))) (some yft_int) (some 0) =
        some (res, some 1) ∧ res.code = 0) :=
  ⟨(validate_return_sets_flag yft_env yft_validator yft_loc yft_void 0 rfl).1 rfl,
   (validate_return_sets_flag yft_env yft_validator yft_loc yft_int 0 rfl).2.1
      (.expr yft_loc (.value "1")) ⟨0, yft_validator, .expr (.literal 1)⟩ (by decide) rfl rfl rfl⟩

/-- C6, as stated, fails for a call: for `f()` the generator writes `(f())`,
whose parentheses form a pair inside a pair, while the expression tree is a
single node without children. The names `f` and `+` hold no parenthesis. -/
theorem yf_gen_expr_call_shape_counterexample :
    yfa_expr_plain yft_call = true ∧
    yfg_no_parens (yft_gen.get_op_string 0) = true ∧
    yfg_expr_text yft_gen yft_call 0 = "(f())" ∧
    yfg_paren_forest (yfg_expr_text yft_gen yft_call 0) ≠ some [yfa_expr_shape yft_call] := by
  refine ⟨by decide, by decide, by decide, ?_⟩
  have h : yfg_paren_forest (yfg_expr_text yft_gen yft_call 0) =
      some [.node [.node []]] := by rfl
  rw [h]
  simp [yft_call, yfa_expr_shape, yfa_args_shape]

/-- C6, amended. For every expression whose call arguments are expression
nodes, with names and operator spellings free of parentheses, the text
written by `yf_gen_expr` starts with `(` and ends with `)`, and its
parentheses read back as exactly one tree: the expression tree in which every
call has one more level, the pair around its argument list; every
sub-expression is written the same way. For an expression without calls this
is the shape of the expression tree itself. -/
theorem yf_gen_expr_paren_tree (G : yfg_env)
    (hop : ∀ op, yfg_no_parens (G.get_op_string op) = true) (e : yfa_expr)
    (he : yfa_expr_plain e = true) (d : Int) :
    (∃ inner, yfg_expr_text G e d = "(" ++ inner ++ ")") ∧
    yfg_paren_forest (yfg_expr_text G e d) = some [yfg_expr_shape e] ∧
    (yfa_expr_call_free e = true →
      yfg_paren_forest (yfg_expr_text G e d) = some [yfa_expr_shape e]) := by
  have hp : yfg_paren_forest (yfg_expr_text G e d) = some [yfg_expr_shape e] := by
    have h := yfg_parse_expr G hop d e he [] [] []
    simpa [yfg_paren_forest, yfg_parse_parens] using h
  refine ⟨?_, hp, fun hc => by rw [hp, yfg_shape_call_free e hc]⟩
  cases e with
  | literal v =>
    exact ⟨toString v, by simp [yfg_expr_text, yf_gen_expr, fprintf_mk, String.append_assoc]⟩
  | identifier sym =>
    exact ⟨sym.name, by simp [yfg_expr_text, yf_gen_expr, fprintf_mk, String.append_assoc]⟩
  | binary l op r =>
    exact ⟨yfg_expr_text G l d ++ " " ++ G.get_op_string op ++ " " ++ yfg_expr_text G r d,
      by rw [yfg_expr_text_binary]; simp [String.append_assoc]⟩
  | call name args =>
    obtain ⟨items, cur⟩ := args
    exact ⟨name.name ++ "(" ++ ", ".intercalate (items.map (fun a => yfg_text G a d)) ++ ")",
      by rw [yfg_expr_text_call]; simp [String.append_assoc]⟩

theorem yf_gen_expr_paren_tree_witness :
    yfg_paren_forest (yfg_expr_text yft_gen yft_call2 0) = some [yfg_expr_shape yft_call2] :=
  (yf_gen_expr_paren_tree yft_gen (fun _ => rfl) yft_call2 (by decide) 0).2.1

/-- C7. The text written by `yf_gen_expr`: a literal gives `(`, the decimal
text of its value, `)`; an identifier gives `(`, the name of its symbol, `)`;
a binary operation gives `(`, the text of the left operand, a space, the
spelling of the operator, a space, the text of the right operand, `)`, the
left operand first. The text is appended to whatever the sink holds. -/
theorem yf_gen_expr_equations (G : yfg_env) (d : Int) :
    (∀ v : Int, yfg_expr_text G (.literal v) d = "(" ++ toString v ++ ")") ∧
    (∀ sym : yfs_var, yfg_expr_text G (.identifier sym) d = "(" ++ sym.name ++ ")") ∧
    (∀ (l : yfa_expr) (op : yf_operator) (r : yfa_expr),
      yfg_expr_text G (.binary l op r) d =
        "(" ++ yfg_expr_text G l d ++ " " ++ G.get_op_string op ++ " "
          ++ yfg_expr_text G r d ++ ")") ∧
    (∀ (e : yfa_expr) (out : String),
      (yf_gen_expr G e ⟨out, d⟩).2 = ⟨out ++ yfg_expr_text G e d, d⟩) := by
  refine ⟨?_, ?_, ?_, ?_⟩
  · intro v
    simp [yfg_expr_text, yf_gen_expr, fprintf_mk, String.append_assoc]
  · intro sym
    simp [yfg_expr_text, yf_gen_expr, fprintf_mk, String.append_assoc]
  · intro l op r
    exact yfg_expr_text_binary G l op r d
  · intro e out
    exact yf_gen_expr_out G e out d

/-- C8. For a call of `f` with arguments `a1..an` the generator writes `(`,
`f`, `(`, the texts of the arguments in list order joined by `, `, `)`, `)`:
the first argument follows the opening parenthesis directly, each further
argument is preceded by one separator, nothing follows the last one, and
without arguments the text is `(f())`. The position of the list cursor
before the call does not matter. -/
theorem yf_gen_expr_call (G : yfg_env) (name : yfs_fn) (cur : Nat) (d : Int) :
    (∀ items : List yf_ast_node,
      yfg_expr_text G (.call name ⟨items, cur⟩) d =
        "(" ++ name.name ++ "(" ++ ", ".intercalate (items.map (fun a => yfg_text G a d))
          ++ ")" ++ ")") ∧
    yfg_expr_text G (.call name ⟨[], cur⟩) d = "(" ++ name.name ++ "()" ++ ")" ∧
    (∀ (a : yf_ast_node) (rest : List yf_ast_node),
      yfg_expr_text G (.call name ⟨a :: rest, cur⟩) d =
        "(" ++ name.name ++ "(" ++ yfg_text G a d
          ++ String.join (rest.map (fun b => ", " ++ yfg_text G b d)) ++ ")" ++ ")") := by
  refine ⟨fun items => yfg_expr_text_call G name items cur d, ?_, ?_⟩
  · rw [yfg_expr_text_call]
    simp [String.intercalate, String.append_assoc]
  · intro a rest
    rw [yfg_expr_text_call]
    simp [intercalate_cons, List.map_map, Function.comp_def, String.append_assoc]

/-- C9. For a function declaration with return type `t`, name `f`,
parameters `p1..pn` and a body, `yf_gen_funcdecl` writes the output spelling
of `t`, ` /* `, the source name of `t`, ` */ `, `f`, `(`, the texts of the
parameters in list order joined by `, ` (nothing before the first or after
the last), `) `, and the text of the body. -/
theorem yf_gen_funcdecl_text (G : yfg_env) (name : yfs_fn) (cur : Nat)
    (body : yf_ast_node) (d : Int) :
    (∀ items : List yf_ast_node,
      yfg_funcdecl_text G (.mk name ⟨items, cur⟩ body) d =
        G.yfg_ctype name.rtype ++ " /* " ++ name.rtype.name ++ " */ " ++ name.name ++ "("
          ++ ", ".intercalate (items.map (fun p => yfg_text G p d)) ++ ") "
          ++ yfg_text G body d) ∧
    yfg_funcdecl_text G (.mk name ⟨[], cur⟩ body) d =
      G.yfg_ctype name.rtype ++ " /* " ++ name.rtype.name ++ " */ " ++ name.name ++ "("
        ++ ") " ++ yfg_text G body d ∧
    (∀ (p : yf_ast_node) (rest : List yf_ast_node),
      yfg_funcdecl_text G (.mk name ⟨p :: rest, cur⟩ body) d =
        G.yfg_ctype name.rtype ++ " /* " ++ name.rtype.name ++ " */ " ++ name.name ++ "("
          ++ yfg_text G p d ++ String.join (rest.map (fun q => ", " ++ yfg_text G q d))
          ++ ") " ++ yfg_text G body d) ∧
    (∀ (items : List yf_ast_node) (out : String),
      (yf_gen_funcdecl G (.mk name ⟨items, cur⟩ body) ⟨out, d⟩).2 =
        ⟨out ++ yfg_funcdecl_text G (.mk name ⟨items, cur⟩ body) d, d⟩) := by
  refine ⟨fun items => yfg_funcdecl_text_eq G name items cur body d, ?_, ?_, ?_⟩
  · rw [yfg_funcdecl_text_eq]
    simp [String.intercalate, String.append_assoc]
  · intro p rest
    rw [yfg_funcdecl_text_eq]
    simp [intercalate_cons, List.map_map, Function.comp_def, String.append_assoc]
  · intro items out
    obtain ⟨t, ht⟩ := yf_gen_funcdecl_appends G (.mk name ⟨items, cur⟩ body) d
    simp only at ht
    simp [yfg_funcdecl_text, ht]

/-- C10. For a block whose list cursor is at the start, generated at
indentation level `d`, `yf_gen_bstmt` writes an opening brace, then for each
statement in list order a line break, the tabs of level `d + 1`, the text of
the statement at level `d + 1` and `;`, and after the statements a line
break, the tabs of level `d` and a closing brace; level `n` is `n` tab
characters, and a statement that is itself a block has its own statements one
level deeper. The indentation counter is `d` again afterwards. -/
theorem yf_gen_bstmt_text (G : yfg_env) (items : List yf_ast_node) (cur : Nat) (d : Int)
    (hcur : cur = 0) :
    yfg_bstmt_text G (.mk ⟨items, cur⟩) d =
      "\x7b" ++ String.join (items.map
          (fun s => "\n" ++ yfg_tabs (d + 1) ++ yfg_text G s (d + 1) ++ ";"))
        ++ "\n" ++ yfg_tabs d ++ "\x7d" ∧
    (∀ n : Nat, (yfg_tabs n).data = List.replicate n '\t') ∧
    (∀ inner : List yf_ast_node,
      yfg_text G (.bstmt (.mk ⟨inner, 0⟩)) (d + 1) =
        "\x7b" ++ String.join (inner.map
            (fun s => "\n" ++ yfg_tabs (d + 1 + 1) ++ yfg_text G s (d + 1 + 1) ++ ";"))
          ++ "\n" ++ yfg_tabs (d + 1) ++ "\x7d") ∧
    (∀ out : String,
      (yf_gen_bstmt G (.mk ⟨items, cur⟩) ⟨out, d⟩).2 =
        ⟨out ++ yfg_bstmt_text G (.mk ⟨items, cur⟩) d, d⟩) := by
  subst hcur
  refine ⟨?_, ?_, ?_, ?_⟩
  · rw [yfg_bstmt_text_eq]
    simp
  · intro n
    simp [yfg_tabs]
  · intro inner
    rw [yfg_text_bstmt, yfg_bstmt_text_eq]
    simp
  · intro out
    obtain ⟨t, ht⟩ := yf_gen_bstmt_appends G (.mk ⟨items, 0⟩) d
    simp only at ht
    simp [yfg_bstmt_text, ht]

theorem yf_gen_bstmt_text_witness :
    yfg_bstmt_text yft_gen yft_block 0 = "\x7b\n\treturn (0);\n\x7d" := by
  have h := (yf_gen_bstmt_text yft_gen [.ret (.mk (some (.expr (.literal 0))))] 0 0 rfl).1
  rw [yft_block, h]
  decide

/-! ### Further texts of the generator -/

theorem yf_gen_program_loop_out (G : yfg_env) (d : Int) :
    ∀ (items : List yf_ast_node) (k : Nat) (out : String),
      (yf_gen_program_loop G items k ⟨out, d⟩).2 =
        ⟨out ++ String.join ((items.drop k).map
          (fun c => yfg_text G c d ++ (if c.is_vardecl then ";" else "") ++ "\n"
            ++ yfg_tabs d)), d⟩
  | [], k, out => by simp [yf_gen_program_loop, String.join]
  | c :: rest, k + 1, out => by
    simp only [yf_gen_program_loop, List.drop_succ_cons]
    exact yf_gen_program_loop_out G d rest k out
  | c :: rest, 0, out => by
    simp only [yf_gen_program_loop, yf_gen_node_out, List.drop_zero, List.map_cons,
      string_join_cons]
    have ih := yf_gen_program_loop_out G d rest 0
    cases hv : c.is_vardecl <;> simp [yfg_print_line_mk, ih, String.append_assoc]

theorem yfg_text_program (G : yfg_env) (items : List yf_ast_node) (cur : Nat) (d : Int) :
    yfg_text G (.program (.mk ⟨items, cur⟩)) d =
      String.join ((items.drop cur).map
        (fun c => yfg_text G c d ++ (if c.is_vardecl then ";" else "") ++ "\n"
          ++ yfg_tabs d)) := by
  have h : (yf_gen_node G (.program (.mk ⟨items, cur⟩)) ⟨"", d⟩).2 =
      ⟨"" ++ String.join ((items.drop cur).map
        (fun c => yfg_text G c d ++ (if c.is_vardecl then ";" else "") ++ "\n"
          ++ yfg_tabs d)), d⟩ := by
    simp only [yf_gen_node, yf_gen_program, yf_gen_program_loop_out]
  show (yf_gen_node G (.program (.mk ⟨items, cur⟩)) ⟨"", d⟩).2.out = _
  rw [h]
  simp

theorem yfg_text_if_none (G : yfg_env) (cond code : yf_ast_node) (d : Int) :
    yfg_text G (.ifstmt (.mk cond code none)) d =
      "if (" ++ yfg_text G cond d ++ ") \x7b" ++ "\n" ++ yfg_tabs d ++ yfg_text G code d
        ++ ";" ++ "\n" ++ yfg_tabs d ++ "\x7d" := by
  have h : (yf_gen_node G (.ifstmt (.mk cond code none)) ⟨"", d⟩).2 =
      ⟨"if (" ++ yfg_text G cond d ++ ") \x7b" ++ "\n" ++ yfg_tabs d ++ yfg_text G code d
        ++ ";" ++ "\n" ++ yfg_tabs d ++ "\x7d", d⟩ := by
    simp only [yf_gen_node, yf_gen_if, fprintf_mk, yf_gen_node_out, yfg_print_line_mk,
      String.append_assoc, String.empty_append]
  show (yf_gen_node G (.ifstmt (.mk cond code none)) ⟨"", d⟩).2.out = _
  rw [h]

theorem yfg_text_if_some (G : yfg_env) (cond code e : yf_ast_node) (d : Int) :
    yfg_text G (.ifstmt (.mk cond code (some e))) d =
      "if (" ++ yfg_text G cond d ++ ") \x7b" ++ "\n" ++ yfg_tabs d ++ yfg_text G code d
        ++ ";" ++ "\n" ++ yfg_tabs d ++ "\x7d" ++ " else \x7b" ++ "\n" ++ yfg_tabs d
        ++ yfg_text G e d ++ ";" ++ "\n" ++ yfg_tabs d ++ "\x7d" := by
  have h : (yf_gen_node G (.ifstmt (.mk cond code (some e))) ⟨"", d⟩).2 =
      ⟨"if (" ++ yfg_text G cond d ++ ") \x7b" ++ "\n" ++ yfg_tabs d ++ yfg_text G code d
        ++ ";" ++ "\n" ++ yfg_tabs d ++ "\x7d" ++ " else \x7b" ++ "\n" ++ yfg_tabs d
        ++ yfg_text G e d ++ ";" ++ "\n" ++ yfg_tabs d ++ "\x7d", d⟩ := by
    simp only [yf_gen_node, yf_gen_if, fprintf_mk, yf_gen_node_out, yfg_print_line_mk,
      String.append_assoc, String.empty_append]
  show (yf_gen_node G (.ifstmt (.mk cond code (some e))) ⟨"", d⟩).2.out = _
  rw [h]

/-! ## The claims, continued -/

/-- C11. The function declaration of `int main() { return 0; }`, freshly
built and generated at indentation level 0, gives the output spelling of the
return type followed by ` /* int */ main() {`, a line break, a tab,
`return (0);`, a line break and `}`; when the type is spelled `int` this is
exactly `int /* int */ main() {\n\treturn (0);\n}`. -/
theorem yf_gen_minimal_program (G : yfg_env) (cur : Nat) :
    yfg_funcdecl_text G (.mk ⟨"main", yft_int⟩ ⟨[], cur⟩ (.bstmt yft_block)) 0 =
      G.yfg_ctype yft_int ++ " /* int */ main() \x7b\n\treturn (0);\n\x7d" ∧
    (G.yfg_ctype yft_int = "int" →
      yfg_funcdecl_text G (.mk ⟨"main", yft_int⟩ ⟨[], cur⟩ (.bstmt yft_block)) 0 =
        "int /* int */ main() \x7b\n\treturn (0);\n\x7d") := by
  have hb : yfg_text G (.bstmt yft_block) 0 = "\x7b\n\treturn (0);\n\x7d" := rfl
  have h : yfg_funcdecl_text G (.mk ⟨"main", yft_int⟩ ⟨[], cur⟩ (.bstmt yft_block)) 0 =
      G.yfg_ctype yft_int ++ " /* int */ main() \x7b\n\treturn (0);\n\x7d" := by
    rw [yfg_funcdecl_text_eq, hb]
    simp only [List.map_nil, String.intercalate, String.append_assoc]
    rfl
  refine ⟨h, fun hint => ?_⟩
  rw [h, hint]
  rfl

theorem yf_gen_minimal_program_witness :
    yfg_funcdecl_text yft_gen_int yft_main 0 = "int /* int */ main() \x7b\n\treturn (0);\n\x7d" :=
  (yf_gen_minimal_program yft_gen_int 0).2 rfl

/-- C12: a second run over the same tree writes a different text. The first
run over the tree of `int main() { return 0; }` leaves the cursor of the body
block behind its last statement, and `yf_gen_bstmt` does not move it back, so
the second run writes an empty block; the same holds through `yfg_gen`. -/
theorem yf_gen_node_second_run_differs :
    (yf_gen_node yft_gen yft_unit ⟨"", 0⟩).2.out =
      "int32_t /* int */ main() \x7b\n\treturn (0);\n\x7d\n" ∧
    (yf_gen_node yft_gen (yf_gen_node yft_gen yft_unit ⟨"", 0⟩).1
        ⟨"", (yf_gen_node yft_gen yft_unit ⟨"", 0⟩).2.yf_dump_indent⟩).2.out =
      "int32_t /* int */ main() \x7b\n\x7d\n" ∧
    (yfg_gen yft_gen true (yfg_gen yft_gen true yft_unit 0).ast_tree
        (yfg_gen yft_gen true yft_unit 0).yf_dump_indent).file ≠
      (yfg_gen yft_gen true yft_unit 0).file := by
  refine ⟨by decide, by decide, by decide⟩

/-- C13, as stated, fails: after the `;` of the then-branch the generator
writes a line break before the closing brace. For `if (1) return` at level 0
it writes `if ((1)) {`, a line break, `return ;`, a line break and `}`, not
`return ;}`. -/
theorem yf_gen_if_tight_counterexample :
    yfg_text yft_gen (.ifstmt yft_if) 0 = "if ((1)) \x7b\nreturn ;\n\x7d" ∧
    yfg_if_text_tight yft_gen (.expr (.literal 1)) (.ret (.mk none)) none 0 =
      "if ((1)) \x7b\nreturn ;\x7d" ∧
    yfg_text yft_gen (.ifstmt yft_if) 0 ≠
      yfg_if_text_tight yft_gen (.expr (.literal 1)) (.ret (.mk none)) none 0 := by
  refine ⟨by decide, by decide, by decide⟩

/-- C13, amended. For a conditional with condition `c`, then-branch `t` and
optional else-branch `e`, `yf_gen_if` writes `if (`, the text of `c`, `) {`, a
line break and the current indentation, the text of `t`, `;`, a line break and
the current indentation, `}`; and, exactly when there is an else-branch,
` else {`, a line break and the indentation, the text of `e`, `;`, a line
break and the indentation, `}`. Without an else-branch nothing follows the
first `}`. -/
theorem yf_gen_if_text (G : yfg_env) (cond code : yf_ast_node) (d : Int) :
    yfg_text G (.ifstmt (.mk cond code none)) d =
      "if (" ++ yfg_text G cond d ++ ") \x7b" ++ "\n" ++ yfg_tabs d ++ yfg_text G code d
        ++ ";" ++ "\n" ++ yfg_tabs d ++ "\x7d" ∧
    (∀ e : yf_ast_node,
      yfg_text G (.ifstmt (.mk cond code (some e))) d =
        "if (" ++ yfg_text G cond d ++ ") \x7b" ++ "\n" ++ yfg_tabs d ++ yfg_text G code d
          ++ ";" ++ "\n" ++ yfg_tabs d ++ "\x7d" ++ " else \x7b" ++ "\n" ++ yfg_tabs d
          ++ yfg_text G e d ++ ";" ++ "\n" ++ yfg_tabs d ++ "\x7d") ∧
    (∀ (i : yfa_if) (out : String),
      (yf_gen_if G i ⟨out, d⟩).2 = ⟨out ++ yfg_text G (.ifstmt i) d, d⟩) := by
  refine ⟨yfg_text_if_none G cond code d, fun e => yfg_text_if_some G cond code e d, ?_⟩
  intro i out
  have h := yf_gen_node_out G (.ifstmt i) out d
  simpa [yf_gen_node] using h

/-- C14, as stated, fails: after a variable declaration the generator writes
`;` and then a line break, not `;` alone. The program `int x;` gives
`int32_t /* int */ x;` followed by a line break. -/
theorem yf_gen_program_tight_counterexample :
    yfg_text yft_gen yft_unit_var 0 = "int32_t /* int */ x;\n" ∧
    yfg_program_text_tight yft_gen [.vardecl (.mk ⟨"x", yft_int⟩ none)] 0 =
      "int32_t /* int */ x;" ∧
    yfg_text yft_gen yft_unit_var 0 ≠
      yfg_program_text_tight yft_gen [.vardecl (.mk ⟨"x", yft_int⟩ none)] 0 := by
  refine ⟨by decide, by decide, by decide⟩

/-- C14, amended. For a program whose list cursor is at the start,
`yf_gen_program` writes, in list order and once each, the text of every
declaration followed by its terminator: `;` and a line break for a variable
declaration, a line break alone otherwise, each line break followed by the
current indentation (nothing at level 0). The cursor is at the start again
afterwards. -/
theorem yf_gen_program_text (G : yfg_env) (decls : List yf_ast_node) (cur : Nat) (d : Int)
    (hcur : cur = 0) :
    yfg_text G (.program (.mk ⟨decls, cur⟩)) d =
      String.join (decls.map
        (fun c => yfg_text G c d ++ (if c.is_vardecl then ";" else "") ++ "\n"
          ++ yfg_tabs d)) ∧
    yfg_tabs 0 = "" ∧
    (∀ out : String,
      (yf_gen_node G (.program (.mk ⟨decls, cur⟩)) ⟨out, d⟩).2 =
        ⟨out ++ yfg_text G (.program (.mk ⟨decls, cur⟩)) d, d⟩) ∧
    (∀ out : String, ∃ decls1,
      (yf_gen_node G (.program (.mk ⟨decls, cur⟩)) ⟨out, d⟩).1 =
        .program (.mk ⟨decls1, 0⟩)) := by
  subst hcur
  refine ⟨?_, rfl, fun out => yf_gen_node_out G _ out d, fun out => ?_⟩
  · rw [yfg_text_program]
    simp
  · exact ⟨(yf_gen_program_loop G decls 0 ⟨out, d⟩).1,
      by simp [yf_gen_node, yf_gen_program, yf_list_reset]⟩

theorem yf_gen_program_text_witness :
    yfg_text yft_gen yft_unit 0 = "int32_t /* int */ main() \x7b\n\treturn (0);\n\x7d\n" := by
  have h := (yf_gen_program_text yft_gen [.funcdecl yft_main] 0 0 rfl).1
  rw [yft_unit, h]
  decide

/-- C15, as stated, fails: for the empty node the generator writes `;`
followed by a line break. -/
theorem yf_gen_empty_counterexample :
    yfg_text yft_gen .empty 0 = ";\n" ∧ yfg_text yft_gen .empty 0 ≠ ";" := by
  refine ⟨by decide, by decide⟩

/-- C15, amended. For the empty node `yf_gen_node` writes exactly `;`
followed by a line break and nothing else, whatever the indentation, and
leaves the node and the indentation as they were. -/
theorem yf_gen_empty_text (G : yfg_env) (d : Int) :
    yfg_text G .empty d = ";\n" ∧
    (∀ out : String, yf_gen_node G .empty ⟨out, d⟩ = (.empty, ⟨out ++ ";\n", d⟩)) := by
  refine ⟨rfl, fun out => ?_⟩
  simp [yf_gen_node, fprintf_mk]

/-- C16. Starting from an empty type table, as `yfs_validate` sets it up, and
with successful allocations, `yfv_add_builtin_types` leaves in the registry
exactly char(8,Int), short(16,Int), int(32,Int), long(64,Int), void(0,None),
float(32,Float), double(64,Float), i16, i32, i64 (Int), f16, f32, f64 (Float)
and bool(1,Int); their names are pairwise distinct, so no registration is
refused as a duplicate, and `void` is the only one of size 0 and the only one
of format None. -/
theorem yfv_add_builtin_types_registry (yf_malloc : yf_file_compilation_data → Bool)
    (halloc : ∀ f, yf_malloc f = true) (fdata : yf_file_compilation_data)
    (hempty : fdata.types = []) :
    yfv_add_builtin_types yf_malloc fdata =
      some ⟨fdata.error, yfs_builtin_types, fdata.symtab⟩ ∧
    yfs_builtin_types.length = 14 ∧
    (yfs_builtin_types.map (fun t => t.name)).Nodup ∧
    (∀ t ∈ yfs_builtin_types, t.size = 0 ↔ t = ⟨0, .YFS_NONE, "void"⟩) ∧
    (∀ t ∈ yfs_builtin_types, t.fmt = .YFS_NONE ↔ t = ⟨0, .YFS_NONE, "void"⟩) ∧
    (⟨0, .YFS_NONE, "void"⟩ : yfs_type) ∈ yfs_builtin_types := by
  refine ⟨?_, rfl, by decide, by decide, by decide, by decide⟩
  obtain ⟨e, ts, sy⟩ := fdata
  simp only at hempty
  subst hempty
  simp [yfv_add_builtin_types, add_type, halloc, yfv_add_type, yfs_builtin_types]

theorem yfv_add_builtin_types_registry_witness :
    yfv_add_builtin_types (fun _ => true) (yfh_new_types yft_validator.fdata) =
      some ⟨0, yfs_builtin_types, .mk [] none⟩ :=
  (yfv_add_builtin_types_registry (fun _ => true) (fun _ => rfl)
    (yfh_new_types yft_validator.fdata) rfl).1

/-- C17. When the output file can be opened, `yfg_gen` returns 0 and the file
holds the header `/* Generated by yfc. */`, an empty line,
`#include <stdint.h>`, an empty line, followed by exactly the text generated
for the root of the tree; the header comes before every declaration. -/
theorem yfg_gen_header (G : yfg_env) (can_open : Bool) (ast_tree : yf_ast_node) (d : Int)
    (hopen : can_open = true) :
    (yfg_gen G can_open ast_tree d).code = 0 ∧
    (yfg_gen G can_open ast_tree d).file =
      some ("/* Generated by yfc. */\n\n#include <stdint.h>\n\n" ++ yfg_text G ast_tree d) ∧
    (yfg_gen G can_open ast_tree d).yf_dump_indent = d := by
  subst hopen
  have h : yfg_gen G true ast_tree d =
      ⟨0, some ("/* Generated by yfc. */\n\n#include <stdint.h>\n\n" ++ yfg_text G ast_tree d),
        (yf_gen_node G ast_tree
          ⟨"" ++ "/* Generated by yfc. */\n\n" ++ "#include <stdint.h>\n\n", d⟩).1, d⟩ := by
    simp only [yfg_gen, Bool.true_eq_false, if_false, fprintf_mk, yf_gen_node_out]
    rfl
  rw [h]
  exact ⟨rfl, rfl, rfl⟩

theorem yfg_gen_header_witness :
    (yfg_gen yft_gen true yft_unit 0).file =
      some ("/* Generated by yfc. */\n\n#include <stdint.h>\n\n" ++ yfg_text yft_gen yft_unit 0) :=
  (yfg_gen_header yft_gen true yft_unit 0 rfl).2.1

/-! ### The indentation counter never goes below its starting value -/

theorem yf_gen_node_indent (G : yfg_env) (n : yf_ast_node) (st : yfg_state) :
    (yf_gen_node G n st).2.yf_dump_indent = st.yf_dump_indent := by
  obtain ⟨out, d⟩ := st
  rw [yf_gen_node_out]

theorem yf_gen_expr_indent (G : yfg_env) (e : yfa_expr) (st : yfg_state) :
    (yf_gen_expr G e st).2.yf_dump_indent = st.yf_dump_indent := by
  obtain ⟨out, d⟩ := st
  rw [yf_gen_expr_out]

theorem yfg_print_line_indent (st : yfg_state) (s : String) :
    (yfg_print_line st s).yf_dump_indent = st.yf_dump_indent := rfl

theorem fprintf_indent (st : yfg_state) (s : String) :
    (fprintf st s).yf_dump_indent = st.yf_dump_indent := rfl

theorem yf_gen_bstmt_loop_indent (G : yfg_env) (items : List yf_ast_node) (k : Nat)
    (st : yfg_state) :
    (yf_gen_bstmt_loop G items k st).2.yf_dump_indent = st.yf_dump_indent := by
  obtain ⟨out, d⟩ := st
  rw [yf_gen_bstmt_loop_out]

mutual
theorem yf_gen_node_levels_ge (G : yfg_env) :
    ∀ (n : yf_ast_node) (st : yfg_state), ∀ x ∈ yf_gen_node_levels G n st,
      st.yf_dump_indent ≤ x
  | .program p, st => by
    simpa [yf_gen_node_levels] using yf_gen_program_levels_ge G p st
  | .vardecl p, st => by
    simpa [yf_gen_node_levels] using yf_gen_vardecl_levels_ge G p st
  | .funcdecl p, st => by
    simpa [yf_gen_node_levels] using yf_gen_funcdecl_levels_ge G p st
  | .expr p, st => by
    simpa [yf_gen_node_levels] using yf_gen_expr_levels_ge G p st
  | .bstmt p, st => by
    simpa [yf_gen_node_levels] using yf_gen_bstmt_levels_ge G p st
  | .ret p, st => by
    simpa [yf_gen_node_levels] using yf_gen_return_levels_ge G p st
  | .ifstmt p, st => by
    simpa [yf_gen_node_levels] using yf_gen_if_levels_ge G p st
  | .empty, st => by simp [yf_gen_node_levels]
theorem yf_gen_program_levels_ge (G : yfg_env) :
    ∀ (p : yfa_program) (st : yfg_state), ∀ x ∈ yf_gen_program_levels G p st,
      st.yf_dump_indent ≤ x
  | .mk ⟨items, current⟩, st => by
    simpa [yf_gen_program_levels] using yf_gen_program_loop_levels_ge G items current st
theorem yf_gen_program_loop_levels_ge (G : yfg_env) :
    ∀ (l : List yf_ast_node) (k : Nat) (st : yfg_state),
      ∀ x ∈ yf_gen_program_loop_levels G l k st, st.yf_dump_indent ≤ x
  | [], _, st => by simp [yf_gen_program_loop_levels]
  | child :: rest, k + 1, st => by
    simpa [yf_gen_program_loop_levels] using yf_gen_program_loop_levels_ge G rest k st
  | child :: rest, 0, st => by
    intro x hx
    simp only [yf_gen_program_loop_levels, List.mem_append] at hx
    rcases hx with hx | hx
    · exact yf_gen_node_levels_ge G child st x hx
    · have h := yf_gen_program_loop_levels_ge G rest 0 _ x hx
      split at h <;>
        simpa [yfg_print_line_indent, yf_gen_node_indent] using h
theorem yf_gen_vardecl_levels_ge (G : yfg_env) :
    ∀ (p : yfa_vardecl) (st : yfg_state), ∀ x ∈ yf_gen_vardecl_levels G p st,
      st.yf_dump_indent ≤ x
  | .mk name none, st => by simp [yf_gen_vardecl_levels]
  | .mk name (some e), st => by
    intro x hx
    simp only [yf_gen_vardecl_levels] at hx
    simpa [fprintf_indent] using yf_gen_node_levels_ge G e _ x hx
theorem yf_gen_funcdecl_levels_ge (G : yfg_env) :
    ∀ (p : yfa_funcdecl) (st : yfg_state), ∀ x ∈ yf_gen_funcdecl_levels G p st,
      st.yf_dump_indent ≤ x
  | .mk name ⟨items, _⟩ body, st => by
    intro x hx
    simp only [yf_gen_funcdecl_levels, List.mem_append] at hx
    rcases hx with hx | hx
    · simpa [fprintf_indent] using yf_gen_funcdecl_loop_levels_ge G items 0 _ x hx
    · have h := yf_gen_node_levels_ge G body _ x hx
      obtain ⟨out, d⟩ := st
      simpa [fprintf_mk, yf_gen_funcdecl_loop_out] using h
theorem yf_gen_funcdecl_loop_levels_ge (G : yfg_env) :
    ∀ (l : List yf_ast_node) (k : Nat) (st : yfg_state),
      ∀ x ∈ yf_gen_funcdecl_loop_levels G l k st, st.yf_dump_indent ≤ x
  | [], _, st => by simp [yf_gen_funcdecl_loop_levels]
  | child :: rest, k, st => by
    intro x hx
    simp only [yf_gen_funcdecl_loop_levels, List.mem_append] at hx
    have hst : (if k ≠ 0 then fprintf st ", " else st).yf_dump_indent = st.yf_dump_indent := by
      split <;> rfl
    rcases hx with hx | hx
    · have h := yf_gen_node_levels_ge G child _ x hx
      rwa [hst] at h
    · have h := yf_gen_funcdecl_loop_levels_ge G rest (k + 1) _ x hx
      rwa [yf_gen_node_indent, hst] at h
theorem yf_gen_expr_levels_ge (G : yfg_env) :
    ∀ (p : yfa_expr) (st : yfg_state), ∀ x ∈ yf_gen_expr_levels G p st,
      st.yf_dump_indent ≤ x
  | .literal _, st => by simp [yf_gen_expr_levels]
  | .identifier _, st => by simp [yf_gen_expr_levels]
  | .binary left op right, st => by
    intro x hx
    simp only [yf_gen_expr_levels, List.mem_append] at hx
    rcases hx with hx | hx
    · simpa [fprintf_indent] using yf_gen_expr_levels_ge G left _ x hx
    · have h := yf_gen_expr_levels_ge G right _ x hx
      simpa [fprintf_indent, yf_gen_expr_indent] using h
  | .call name ⟨items, _⟩, st => by
    intro x hx
    simp only [yf_gen_expr_levels] at hx
    simpa [fprintf_indent] using yf_gen_expr_loop_levels_ge G items 0 _ x hx
theorem yf_gen_expr_loop_levels_ge (G : yfg_env) :
    ∀ (l : List yf_ast_node) (k : Nat) (st : yfg_state),
      ∀ x ∈ yf_gen_expr_loop_levels G l k st, st.yf_dump_indent ≤ x
  | [], _, st => by simp [yf_gen_expr_loop_levels]
  | child :: rest, k, st => by
    intro x hx
    simp only [yf_gen_expr_loop_levels, List.mem_append] at hx
    have hst : (if k ≠ 0 then fprintf st ", " else st).yf_dump_indent = st.yf_dump_indent := by
      split <;> rfl
    rcases hx with hx | hx
    · have h := yf_gen_node_levels_ge G child _ x hx
      rwa [hst] at h
    · have h := yf_gen_expr_loop_levels_ge G rest (k + 1) _ x hx
      rwa [yf_gen_node_indent, hst] at h
theorem yf_gen_bstmt_levels_ge (G : yfg_env) :
    ∀ (p : yfa_bstmt) (st : yfg_state), ∀ x ∈ yf_gen_bstmt_levels G p st,
      st.yf_dump_indent ≤ x
  | .mk ⟨items, current⟩, st => by
    intro x hx
    obtain ⟨out, d⟩ := st
    simp only [yf_gen_bstmt_levels, fprintf_mk, indent_mk, List.mem_cons, List.mem_append,
      List.mem_singleton, yf_gen_bstmt_loop_out, dedent_mk] at hx
    rcases hx with hx | hx | hx
    · subst hx; show d ≤ d + 1; omega
    · have h := yf_gen_bstmt_loop_levels_ge G items current _ x hx
      simp only at h
      show d ≤ x
      omega
    · simp only [List.not_mem_nil, or_false] at hx
      subst hx; show d ≤ d + 1 - 1; omega
theorem yf_gen_bstmt_loop_levels_ge (G : yfg_env) :
    ∀ (l : List yf_ast_node) (k : Nat) (st : yfg_state),
      ∀ x ∈ yf_gen_bstmt_loop_levels G l k st, st.yf_dump_indent ≤ x
  | [], _, st => by simp [yf_gen_bstmt_loop_levels]
  | child :: rest, k + 1, st => by
    simpa [yf_gen_bstmt_loop_levels] using yf_gen_bstmt_loop_levels_ge G rest k st
  | child :: rest, 0, st => by
    intro x hx
    simp only [yf_gen_bstmt_loop_levels, List.mem_append] at hx
    rcases hx with hx | hx
    · simpa [yfg_print_line_indent] using yf_gen_node_levels_ge G child _ x hx
    · have h := yf_gen_bstmt_loop_levels_ge G rest 0 _ x hx
      simpa [fprintf_indent, yf_gen_node_indent, yfg_print_line_indent] using h
theorem yf_gen_return_levels_ge (G : yfg_env) :
    ∀ (p : yfa_return) (st : yfg_state), ∀ x ∈ yf_gen_return_levels G p st,
      st.yf_dump_indent ≤ x
  | .mk none, st => by simp [yf_gen_return_levels]
  | .mk (some e), st => by
    intro x hx
    simp only [yf_gen_return_levels] at hx
    simpa [fprintf_indent] using yf_gen_node_levels_ge G e _ x hx
theorem yf_gen_if_levels_ge (G : yfg_env) :
    ∀ (p : yfa_if) (st : yfg_state), ∀ x ∈ yf_gen_if_levels G p st,
      st.yf_dump_indent ≤ x
  | .mk cond code none, st => by
    intro x hx
    simp only [yf_gen_if_levels, List.mem_append] at hx
    rcases hx with hx | hx
    · simpa [fprintf_indent] using yf_gen_node_levels_ge G cond _ x hx
    · have h := yf_gen_node_levels_ge G code _ x hx
      simpa [fprintf_indent, yf_gen_node_indent, yfg_print_line_indent] using h
  | .mk cond code (some e), st => by
    intro x hx
    simp only [yf_gen_if_levels, List.mem_append] at hx
    rcases hx with (hx | hx) | hx
    · simpa [fprintf_indent] using yf_gen_node_levels_ge G cond _ x hx
    · have h := yf_gen_node_levels_ge G code _ x hx
      simpa [fprintf_indent, yf_gen_node_indent, yfg_print_line_indent] using h
    · have h := yf_gen_node_levels_ge G e _ x hx
      simpa [fprintf_indent, yf_gen_node_indent, yfg_print_line_indent] using h
end

/-! ### Failing returns, and returns outside a function -/

theorem validate_return_check_atomic (X : yfv_env) (w : yfv_validator) (loc : yf_loc)
    (a : Option yf_ast_node) (type : Option yfs_type) (returns : Option Int)
    (res : yfv_result) (fl : Option Int)
    (h : validate_return_check X w loc a type returns = some (res, fl)) :
    (res.code ≠ 0 → fl = returns ∧ res.validator.fdata.error = 1) ∧
    (res.code = 0 → fl = some 1) := by
  unfold validate_return_check at h
  cases type with
  | none => simp at h
  | some t =>
    simp only at h
    by_cases hc : validate_return_cond X w loc a t = 0
    · cases returns with
      | none => simp [hc] at h
      | some f0 =>
        simp only [hc, ne_eq, not_true_eq_false, if_false, Option.some.injEq,
          Prod.mk.injEq] at h
        obtain ⟨h1, h2⟩ := h
        subst h1
        exact ⟨fun hne => absurd rfl hne, fun _ => h2.symm⟩
    · simp only [hc, ne_eq, not_false_eq_true, if_true, Option.some.injEq,
        Prod.mk.injEq] at h
      obtain ⟨h1, h2⟩ := h
      subst h1
      exact ⟨fun _ => ⟨h2.symm, rfl⟩, fun h0 => absurd h0 (by simp)⟩

theorem validate_program_top_level_return (X : yfv_env) (v : yfv_validator) (loc : yf_loc)
    (cur : Nat) (returns : Option Int) (hm : X.yf_malloc v = true) :
    validate_return X v loc (.mk none) none returns = none ∧
    validate_program X (.mk ⟨[.ret loc (.mk none)], cur⟩) v = none := by
  have h1 : ∀ r : Option Int, validate_return X v loc (.mk none) none r = none := by
    intro r
    simp [validate_return, hm, validate_return_check]
  exact ⟨h1 returns, by simp [validate_program, validate_program_loop, hm, validate_node, h1]⟩

/-- C18. The indentation counter after `yf_gen_node` equals its value before
the call, for every node. The values it is given during the run, which only
`yf_gen_bstmt` produces (one level up on entry, back down before the closing
brace is written at the outer level), are never below the value at the
start, so they are never negative in a run started at level 0. -/
theorem yf_gen_indent_balanced (G : yfg_env) :
    (∀ (n : yf_ast_node) (st : yfg_state),
      (yf_gen_node G n st).2.yf_dump_indent = st.yf_dump_indent) ∧
    (∀ (n : yf_ast_node) (st : yfg_state), ∀ x ∈ yf_gen_node_levels G n st,
      st.yf_dump_indent ≤ x) ∧
    (∀ (n : yf_ast_node) (out : String), ∀ x ∈ yf_gen_node_levels G n ⟨out, 0⟩, 0 ≤ x) ∧
    (∀ (items : List yf_ast_node) (cur : Nat) (out : String) (d : Int),
      yf_gen_bstmt_levels G (.mk ⟨items, cur⟩) ⟨out, d⟩ =
        (d + 1) :: (yf_gen_bstmt_loop_levels G items cur ⟨out ++ "\x7b", d + 1⟩ ++ [d])) ∧
    (∀ (items : List yf_ast_node) (cur : Nat) (d : Int),
      yfg_bstmt_text G (.mk ⟨items, cur⟩) d =
        "\x7b" ++ String.join ((items.drop cur).map
            (fun s => "\n" ++ yfg_tabs (d + 1) ++ yfg_text G s (d + 1) ++ ";"))
          ++ "\n" ++ yfg_tabs d ++ "\x7d") := by
  refine ⟨yf_gen_node_indent G, yf_gen_node_levels_ge G,
    fun n out => yf_gen_node_levels_ge G n ⟨out, 0⟩, ?_, yfg_bstmt_text_eq G⟩
  intro items cur out d
  simp [yf_gen_bstmt_levels, fprintf_mk, indent_mk, dedent_mk, yf_gen_bstmt_loop_out]

theorem yf_gen_indent_balanced_witness :
    (1 : Int) ∈ yf_gen_node_levels yft_gen yft_unit ⟨"", 0⟩ ∧ (0 : Int) ≤ 1 :=
  ⟨by decide, (yf_gen_indent_balanced yft_gen).2.2.1 yft_unit "" 1 (by decide)⟩

/-- C19. When the allocation at entry succeeds: whenever `validate_return`
returns a nonzero code, the has-returned flag keeps its prior value and the
error flag of the compilation unit is set; the flag changes only when the
code is 0, and then it is 1. A return expression that fails validation is one
such case: the code is 1, whatever the enclosing type and flag are. -/
theorem validate_return_failure_atomic (X : yfv_env) (v : yfv_validator) (loc : yf_loc)
    (type : Option yfs_type) (returns : Option Int) (hm : X.yf_malloc v = true) :
    (∀ (c : yfcs_return) (res : yfv_result) (fl : Option Int),
      validate_return X v loc c type returns = some (res, fl) →
        (res.code ≠ 0 → fl = returns ∧ res.validator.fdata.error = 1) ∧
        (fl ≠ returns → res.code = 0 ∧ fl = some 1)) ∧
    (∀ (ce : yf_parse_node) (r : yfv_result),
      X.validate_expr v ce = some r → r.code ≠ 0 →
        ∃ res, validate_return X v loc (.mk (some ce)) type returns = some (res, returns) ∧
          res.code = 1 ∧ res.validator.fdata.error = 1) := by
  constructor
  · intro c res fl h
    have key : (res.code ≠ 0 → fl = returns ∧ res.validator.fdata.error = 1) ∧
        (res.code = 0 → fl = some 1) := by
      obtain ⟨cexpr⟩ := c
      simp only [validate_return, hm, Bool.true_eq_false, if_false] at h
      cases cexpr with
      | none => exact validate_return_check_atomic X v loc none type returns res fl h
      | some ce =>
        simp only at h
        cases he : X.validate_expr v ce with
        | none => simp [he] at h
        | some r =>
          simp only [he] at h
          split at h
          · simp only [Option.some.injEq, Prod.mk.injEq] at h
            obtain ⟨h1, h2⟩ := h
            subst h1
            exact ⟨fun _ => ⟨h2.symm, rfl⟩, fun h0 => absurd h0 (by simp)⟩
          · exact validate_return_check_atomic X r.validator loc _ type returns res fl h
    refine ⟨key.1, fun hne => ?_⟩
    by_cases h0 : res.code = 0
    · exact ⟨h0, key.2 h0⟩
    · exact absurd (key.1 h0).1 hne
  · intro ce r he hr
    exact ⟨⟨1, yfv_set_error r.validator, .ret (.mk (some r.anode))⟩,
      by simp [validate_return, hm, he, hr], rfl, rfl⟩

theorem validate_return_failure_atomic_witness :
    (some 0 : Option Int) = some 0 ∧ (yfv_set_error yft_validator).fdata.error = 1 :=
  ((validate_return_failure_atomic yft_env yft_validator yft_loc (some yft_void) (some 0)
      rfl).1 (.mk (some (.expr yft_loc (.value "1"))))
    ⟨1, yfv_set_error yft_validator, .ret (.mk (some (.expr (.literal 1))))⟩ (some 0) rfl).1
    (by decide)

/-- C20: `validate_program` is not total. It hands every top-level node to
`validate_node` with a null return type and a null flag pointer, and for a
top-level return `validate_return` reads the size of that null type: for the
program whose only node is a bare return, and for one whose only node is
`return 1`, validation has no result. The same return inside a function of
type `void` validates. -/
theorem validate_program_top_level_return_faults :
    validate_node yft_env (.ret yft_loc (.mk none)) yft_validator none none = none ∧
    validate_program yft_env yft_program_ret yft_validator = none ∧
    validate_program yft_env
      (.mk ⟨[.ret yft_loc (.mk (some (.expr yft_loc (.value "1"))))], 0⟩) yft_validator = none ∧
    validate_node yft_env (.ret yft_loc (.mk none)) yft_validator (some yft_void) (some 0) =
      some (⟨0, yft_validator, .ret (.mk none)⟩, some 1) := by
  refine ⟨?_, (validate_program_top_level_return yft_env yft_validator yft_loc 0 none rfl).2,
    rfl, rfl⟩
  simpa [validate_node] using
    (validate_program_top_level_return yft_env yft_validator yft_loc 0 none rfl).1

end Yfc
